import Mathlib

/-!
# GstBaseVideoCodec: frame reference counting, frame creation, reset

A shallow embedding of `gst-libs/gst/video/gstbasevideocodec.c`.

* Pointers are addresses (`Ptr`), `NULL` is address `0`.
* Video frames live in a frame memory `Ptr → Option GstVideoFrame`: an address holds
  `some f` while a frame is allocated there and `none` otherwise, in particular
  after `g_slice_free` released the block.
* A function of the source that takes a `GstVideoFrame *` takes an address here and
  reads and writes the frame stored at it. Reading or writing a block that is not
  allocated has no defined result in the source; such a call returns `none` here, and
  so does every call sequence that contains it.
* `gint` members hold 32-bit signed values and the element's `guint64` counter
  64-bit unsigned ones; stores into them go through `to_gint` and `to_guint64`.
* Calls that leave the file (`gst_buffer_unref`, `gst_event_unref`,
  `gst_caps_unref`, the coder hook destroy notify, `g_slice_free`) are appended,
  in call order, to the `log` of the state.
* `g_list_free` releases the cells of a list, not what they point to; the cells
  are not part of the state, so these calls leave no trace.
* `g_return_if_fail (c)` returns from the function when `c` is false.
-/

namespace Gst

/-- An address. -/
abbrev Ptr := Nat

/-- The null pointer. -/
def NULL : Ptr := 0

/-- `G_MAXINT`, the largest `gint`. -/
def G_MAXINT : Int := 2147483647

/-- `G_MININT`, the smallest `gint`. -/
def G_MININT : Int := -2147483648

/-- The value a `gint` holds after `n` is stored in it: `n` modulo `2^32`, taken in
the range from `G_MININT` to `G_MAXINT`. -/
def to_gint (n : Int) : Int := (n + 2147483648) % 4294967296 - 2147483648

/-- The values a `gint` holds. -/
def is_gint (n : Int) : Prop := G_MININT ≤ n ∧ n ≤ G_MAXINT

instance (n : Int) : Decidable (is_gint n) := by
  unfold is_gint; infer_instance

/-- `G_MAXUINT64`, the largest `guint64`. -/
def G_MAXUINT64 : Nat := 18446744073709551615

/-- The value a `guint64` holds after `n` is stored in it: `n` modulo `2^64`. -/
def to_guint64 (n : Nat) : Nat := n % 18446744073709551616

/-- Modelled from the spec: the header declaring `struct _GstVideoFrame` is absent
from the sources; the members kept are the ones the source file reads or writes.
`ref_count` is a `gint` (the source hands it to `g_atomic_int_inc` and tests
`ref_count > 0`) and `system_frame_number` is a `gint` (the source prints it with
`%d`). -/
structure GstVideoFrame where
  ref_count : Int
  system_frame_number : Int
  sink_buffer : Ptr
  src_buffer : Ptr
  events : List Ptr
  coder_hook : Ptr
  coder_hook_destroy_notify : Ptr
  deriving DecidableEq, Repr

/-- The frame `g_slice_new0 (GstVideoFrame)` hands out: every member zero. -/
def GstVideoFrame.zero : GstVideoFrame :=
  { ref_count := 0, system_frame_number := 0, sink_buffer := NULL, src_buffer := NULL,
    events := [], coder_hook := NULL, coder_hook_destroy_notify := NULL }

/-- `GST_VIDEO_FORMAT_UNKNOWN`: declared by the video library, outside these sources,
as the first enumerator of `GstVideoFormat`, value 0; the spec has the format of a
new element, whose memory is zero-filled, unknown. -/
def GST_VIDEO_FORMAT_UNKNOWN : Nat := 0

/-- Modelled from the spec: the header declaring `GstVideoState` is absent from the
sources; the members the source file names are `format`, `caps` and `codec_data`,
the remaining members are kept as a list of words (`other`). -/
structure GstVideoState where
  format : Nat
  caps : Ptr
  codec_data : Ptr
  other : List Nat
  deriving DecidableEq, Repr

/-- Modelled from the spec: the header declaring `struct _GstBaseVideoCodec` is absent
from the sources; the members kept are the ones the source file reads or writes.
`system_frame_number` is the element's `guint64` counter, `bytes` and `time` are
`gint64` counters, and `stream_lock` is the recursion depth at which the calling
thread holds the recursive mutex. -/
structure GstBaseVideoCodec where
  sinkpad : Ptr
  srcpad : Ptr
  stream_lock : Nat
  system_frame_number : Nat
  frames : List Ptr
  state : GstVideoState
  bytes : Int
  time : Int
  deriving DecidableEq, Repr

/-- A call that leaves the file. -/
inductive Effect where
  | gst_buffer_unref (buf : Ptr)
  | gst_event_unref (event : Ptr)
  | gst_caps_unref (caps : Ptr)
  | coder_hook_destroy_notify (fn : Ptr) (data : Ptr)
  | g_slice_free (frame : Ptr)
  deriving DecidableEq, Repr

/-- The frame memory: the frame allocated at each address, if one is. -/
abbrev Mem := Ptr → Option GstVideoFrame

/-- The state the functions of the file run in: the element, the frame memory and the
calls made so far. -/
structure State where
  codec : GstBaseVideoCodec
  mem : Mem
  log : List Effect

/-- Store `f` at address `p`. -/
def Mem.store (m : Mem) (p : Ptr) (f : GstVideoFrame) : Mem :=
  fun q => if q = p then some f else m q

/-- Release the block at address `p`. -/
def Mem.release (m : Mem) (p : Ptr) : Mem :=
  fun q => if q = p then none else m q

/-- The calls `_gst_video_frame_free` makes for the frame `f` stored at `frame`. -/
def free_effects (frame : Ptr) (f : GstVideoFrame) : List Effect :=
  (if f.sink_buffer ≠ NULL then [Effect.gst_buffer_unref f.sink_buffer] else []) ++
  (if f.src_buffer ≠ NULL then [Effect.gst_buffer_unref f.src_buffer] else []) ++
  f.events.map Effect.gst_event_unref ++
  (if f.coder_hook_destroy_notify ≠ NULL ∧ f.coder_hook ≠ NULL then
     [Effect.coder_hook_destroy_notify f.coder_hook_destroy_notify f.coder_hook] else []) ++
  [Effect.g_slice_free frame]

/-- `_gst_video_frame_free`: the calls of `free_effects`, the last of which,
`g_slice_free`, releases the block. -/
def _gst_video_frame_free (frame : Ptr) (s : State) : Option State :=
  if frame = NULL then some s
  else
    match s.mem frame with
    | none => none
    | some f => some { s with mem := s.mem.release frame, log := s.log ++ free_effects frame f }

/-- `gst_video_frame_ref`: the returned pointer and the state after the call.
`g_atomic_int_inc` adds one to the `gint` count. -/
def gst_video_frame_ref (frame : Ptr) (s : State) : Option (Ptr × State) :=
  if frame = NULL then some (NULL, s)
  else
    match s.mem frame with
    | none => none
    | some f =>
      some (frame,
        { s with mem := s.mem.store frame { f with ref_count := to_gint (f.ref_count + 1) } })

/-- `gst_video_frame_unref`. `g_atomic_int_dec_and_test` takes one off the count and
tells whether the count is now zero; the count is positive at that point, so one less
is a `gint` again and is stored as it is. -/
def gst_video_frame_unref (frame : Ptr) (s : State) : Option State :=
  if frame = NULL then some s
  else
    match s.mem frame with
    | none => none
    | some f =>
      if ¬ (0 < f.ref_count) then some s
      else
        let s1 : State :=
          { s with mem := s.mem.store frame { f with ref_count := f.ref_count - 1 } }
        if f.ref_count - 1 = 0 then _gst_video_frame_free frame s1 else some s1

/-- `gst_base_video_codec_init`: the element after its initialisation. The memory of
the element is zero-filled before the function runs; the function stores the two
pads and initialises the segment and the stream lock. `other_words` is the number
of words of the remaining members of the negotiated state. -/
def gst_base_video_codec_init (sinkpad srcpad : Ptr) (other_words : Nat) : GstBaseVideoCodec :=
  { sinkpad := sinkpad, srcpad := srcpad, stream_lock := 0, system_frame_number := 0,
    frames := [],
    state := { format := 0, caps := NULL, codec_data := NULL,
               other := List.replicate other_words 0 },
    bytes := 0, time := 0 }

/-- `GST_BASE_VIDEO_CODEC_STREAM_LOCK`. -/
def STREAM_LOCK (c : GstBaseVideoCodec) : GstBaseVideoCodec :=
  { c with stream_lock := c.stream_lock + 1 }

/-- `GST_BASE_VIDEO_CODEC_STREAM_UNLOCK`. -/
def STREAM_UNLOCK (c : GstBaseVideoCodec) : GstBaseVideoCodec :=
  { c with stream_lock := c.stream_lock - 1 }

/-- The loop of `gst_base_video_codec_reset` over the frame list: one
`gst_video_frame_unref` call for each entry, from the head on. -/
def unref_frames : List Ptr → State → Option State
  | [], s => some s
  | g :: rest, s => (gst_video_frame_unref g s).bind (unref_frames rest)

/-- `gst_buffer_replace (&buf, NULL)` and `gst_caps_replace (&caps, NULL)`: the old
object, when there is one, loses a reference. -/
def replace_with_null (unref : Ptr → Effect) (old : Ptr) : List Effect :=
  if old ≠ NULL then [unref old] else []

/-- `gst_base_video_codec_reset`. -/
def gst_base_video_codec_reset (s : State) : Option State :=
  let s1 : State := { s with codec := STREAM_LOCK s.codec }
  (unref_frames s1.codec.frames s1).map fun s2 =>
    let c2 := s2.codec
    let c3 : GstBaseVideoCodec := { c2 with frames := [], bytes := 0, time := 0 }
    let log3 := s2.log ++ replace_with_null Effect.gst_buffer_unref c3.state.codec_data
    let c4 : GstBaseVideoCodec := { c3 with state := { c3.state with codec_data := NULL } }
    let log4 := log3 ++ replace_with_null Effect.gst_caps_unref c4.state.caps
    let c5 : GstBaseVideoCodec := { c4 with state := { c4.state with caps := NULL } }
    let c6 : GstBaseVideoCodec :=
      { c5 with state := { format := 0, caps := NULL, codec_data := NULL,
                           other := List.replicate c5.state.other.length 0 } }
    let c7 : GstBaseVideoCodec :=
      { c6 with state := { c6.state with format := GST_VIDEO_FORMAT_UNKNOWN } }
    { codec := STREAM_UNLOCK c7, mem := s2.mem, log := log4 }

/-- `gst_base_video_codec_new_frame`; `frame` is the block `g_slice_new0` returns. The
element's `guint64` counter is copied into the `gint` member of the frame and then
incremented. -/
def gst_base_video_codec_new_frame (frame : Ptr) (s : State) : Ptr × State :=
  let f0 := GstVideoFrame.zero
  let f1 : GstVideoFrame := { f0 with ref_count := 1 }
  let c1 := STREAM_LOCK s.codec
  let f2 : GstVideoFrame :=
    { f1 with system_frame_number := to_gint (c1.system_frame_number : Int) }
  let c2 : GstBaseVideoCodec :=
    { c1 with system_frame_number := to_guint64 (c1.system_frame_number + 1) }
  let c3 := STREAM_UNLOCK c2
  (frame, { s with codec := c3, mem := s.mem.store frame f2 })

/-- `GstStateChange` values: `(current << 3) | next` over the states
`NULL = 1`, `READY = 2`, `PAUSED = 3`, `PLAYING = 4`. -/
abbrev GstStateChange := Nat

def GST_STATE_CHANGE_NULL_TO_READY : GstStateChange := 10
def GST_STATE_CHANGE_READY_TO_PAUSED : GstStateChange := 19
def GST_STATE_CHANGE_PAUSED_TO_PLAYING : GstStateChange := 28
def GST_STATE_CHANGE_PLAYING_TO_PAUSED : GstStateChange := 35
def GST_STATE_CHANGE_PAUSED_TO_READY : GstStateChange := 26
def GST_STATE_CHANGE_READY_TO_NULL : GstStateChange := 17

/-- `GstStateChangeReturn`. -/
abbrev GstStateChangeReturn := Nat

/-- The `change_state` handler of the parent class. -/
abbrev ParentChangeState := State → GstStateChange → State × GstStateChangeReturn

/-- A call made by `gst_base_video_codec_change_state`. -/
inductive Call where
  | reset
  | parent_change_state (transition : GstStateChange)
  deriving DecidableEq, Repr

/-- `gst_base_video_codec_change_state`: the state after the call, the value returned
and the calls made, in order. -/
def gst_base_video_codec_change_state (parent : ParentChangeState) (s : State)
    (transition : GstStateChange) : Option (State × GstStateChangeReturn × List Call) :=
  (if transition = GST_STATE_CHANGE_NULL_TO_READY then some (s, [])
   else if transition = GST_STATE_CHANGE_READY_TO_PAUSED then
     (gst_base_video_codec_reset s).map fun s1 => (s1, [Call.reset])
   else if transition = GST_STATE_CHANGE_PAUSED_TO_PLAYING then some (s, [])
   else some (s, [])).bind fun r1 =>
    let r2 := parent r1.1 transition
    let calls2 := r1.2 ++ [Call.parent_change_state transition]
    (if transition = GST_STATE_CHANGE_PLAYING_TO_PAUSED then some (r2.1, calls2)
     else if transition = GST_STATE_CHANGE_PAUSED_TO_READY then
       (gst_base_video_codec_reset r2.1).map fun s3 => (s3, calls2 ++ [Call.reset])
     else if transition = GST_STATE_CHANGE_READY_TO_NULL then some (r2.1, calls2)
     else some (r2.1, calls2)).map fun r3 => (r3.1, r2.2, r3.2)

/-! ## Reading the log -/

/-- The buffers `gst_buffer_unref` was called on, in call order. -/
def buffer_unrefs (l : List Effect) : List Ptr :=
  l.filterMap fun e => match e with
    | Effect.gst_buffer_unref b => some b
    | _ => none

/-- The events `gst_event_unref` was called on, in call order. -/
def event_unrefs (l : List Effect) : List Ptr :=
  l.filterMap fun e => match e with
    | Effect.gst_event_unref b => some b
    | _ => none

/-- The caps `gst_caps_unref` was called on, in call order. -/
def caps_unrefs (l : List Effect) : List Ptr :=
  l.filterMap fun e => match e with
    | Effect.gst_caps_unref b => some b
    | _ => none

/-- The calls of a coder hook destroy notify: the function called and its argument. -/
def notify_calls (l : List Effect) : List (Ptr × Ptr) :=
  l.filterMap fun e => match e with
    | Effect.coder_hook_destroy_notify fn data => some (fn, data)
    | _ => none

/-- The frames handed to `g_slice_free`, in call order: the frames destroyed. -/
def slice_frees (l : List Effect) : List Ptr :=
  l.filterMap fun e => match e with
    | Effect.g_slice_free f => some f
    | _ => none

/-- How many times the frame at `frame` was destroyed. -/
def destroyed (frame : Ptr) (s : State) : Nat :=
  (slice_frees s.log).count frame

/-! ## Sequences of calls -/

/-- A call on a frame: `gst_video_frame_ref` or `gst_video_frame_unref`. -/
inductive RefOp where
  | ref
  | unref
  deriving DecidableEq, Repr

/-- One call on the frame at `frame`. -/
def apply_op (frame : Ptr) (s : State) : RefOp → Option State
  | RefOp.ref => (gst_video_frame_ref frame s).map fun r => r.2
  | RefOp.unref => gst_video_frame_unref frame s

/-- The calls of `ops` made one after another on the frame at `frame`. -/
def run_ops (frame : Ptr) : List RefOp → State → Option State
  | [], s => some s
  | op :: ops, s => (apply_op frame s op).bind (run_ops frame ops)

/-- The number of `gst_video_frame_ref` calls in `ops`. -/
def refs (ops : List RefOp) : Nat := ops.count RefOp.ref

/-- The number of `gst_video_frame_unref` calls in `ops`. -/
def unrefs (ops : List RefOp) : Nat := ops.count RefOp.unref

/-- No prefix of `ops` contains more unrefs than refs plus one. -/
def never_below_zero (ops : List RefOp) : Prop :=
  ∀ k, k ≤ ops.length → unrefs (ops.take k) ≤ refs (ops.take k) + 1

/-- Before every call of `ops` the unrefs made so far are at most the refs made so
far: on a frame that starts with the count 1 no call is made after the unref that
took the count to 0. -/
def live_at_each_call (ops : List RefOp) : Prop :=
  ∀ k, k < ops.length → unrefs (ops.take k) ≤ refs (ops.take k)

instance (ops : List RefOp) : Decidable (never_below_zero ops) := by
  unfold never_below_zero; infer_instance

instance (ops : List RefOp) : Decidable (live_at_each_call ops) := by
  unfold live_at_each_call; infer_instance

/-- Every entry of the list `ps` can take its `gst_video_frame_unref` call when the
calls are made in list order from the state `s`: the entry is null, or a frame is
allocated at it whose count is not positive, or one whose count is at least the
number of entries the list has for it. -/
def can_unref_all (ps : List Ptr) (s : State) : Prop :=
  ∀ q, q ∈ ps → q = NULL ∨
    ∃ f, s.mem q = some f ∧ (f.ref_count ≤ 0 ∨ (ps.count q : Int) ≤ f.ref_count)

/-- Calls of `gst_base_video_codec_new_frame` made one after another, one for each
block of `blocks` (the blocks `g_slice_new0` returns): the sequence numbers of the
frames returned, read when each call returns, and the state after the last call. -/
def new_frames : List Ptr → State → List Int × State
  | [], s => ([], s)
  | block :: blocks, s =>
    let r := gst_base_video_codec_new_frame block s
    let rest := new_frames blocks r.2
    (((r.2.mem r.1).map fun f => f.system_frame_number).toList ++ rest.1, rest.2)

/-- A call on the element: `gst_base_video_codec_new_frame` (with the block
`g_slice_new0` returns) or `gst_base_video_codec_reset`. -/
inductive CodecOp where
  | new_frame (block : Ptr)
  | reset
  deriving DecidableEq, Repr

/-- The number of `new_frame` calls in `ops`. -/
def new_frame_calls : List CodecOp → Nat
  | [] => 0
  | CodecOp.new_frame _ :: ops => new_frame_calls ops + 1
  | CodecOp.reset :: ops => new_frame_calls ops

/-- The calls of `ops` made one after another on the element: the sequence numbers of
the frames returned, read when each call returns, and the state after the last
call. -/
def run_codec_ops : List CodecOp → State → Option (List Int × State)
  | [], s => some ([], s)
  | CodecOp.new_frame block :: ops, s =>
    let r := gst_base_video_codec_new_frame block s
    (run_codec_ops ops r.2).map fun rest =>
      (((r.2.mem r.1).map fun f => f.system_frame_number).toList ++ rest.1, rest.2)
  | CodecOp.reset :: ops, s => (gst_base_video_codec_reset s).bind (run_codec_ops ops)

/-- Every block `g_slice_new0` hands out to a `new_frame` call of `ops`, the calls
being made one after another from the state `s`, is a block that is not allocated
when it is handed out, and is not null. -/
def fresh_blocks : List CodecOp → State → Bool
  | [], _ => true
  | CodecOp.new_frame block :: ops, s =>
    decide (block ≠ NULL) && (s.mem block).isNone &&
      fresh_blocks ops (gst_base_video_codec_new_frame block s).2
  | CodecOp.reset :: ops, s =>
    match gst_base_video_codec_reset s with
    | none => true
    | some s1 => fresh_blocks ops s1

/-- A state with the element as `gst_base_video_codec_init` leaves it, no frame
allocated, and no call made yet. -/
def initial_state (sinkpad srcpad : Ptr) (other_words : Nat) : State :=
  { codec := gst_base_video_codec_init sinkpad srcpad other_words,
    mem := fun _ => none,
    log := [] }

/-! ## Concrete states -/

/-- A frame with a sink buffer, no source buffer, two events and a coder hook. -/
def example_frame : GstVideoFrame :=
  { ref_count := 1, system_frame_number := 7, sink_buffer := 10, src_buffer := NULL,
    events := [20, 21], coder_hook := 30, coder_hook_destroy_notify := 40 }

/-- A second frame, held twice, with no buffer, event or coder hook data. -/
def shared_frame : GstVideoFrame :=
  { ref_count := 2, system_frame_number := 6, sink_buffer := NULL, src_buffer := NULL,
    events := [], coder_hook := NULL, coder_hook_destroy_notify := 40 }

/-- An element that holds caps and codec data and has two live frames, at the
addresses 5 and 6; the frame at 6 is shared (count 2). -/
def example_state : State :=
  { codec :=
      { sinkpad := 1, srcpad := 2, stream_lock := 0, system_frame_number := 8,
        frames := [5, 6],
        state := { format := 2, caps := 50, codec_data := 60, other := [640, 480] },
        bytes := 1000, time := 2000 },
    mem := Mem.store (Mem.store (fun _ => none) 5 example_frame) 6 shared_frame,
    log := [] }

/-- The state after the first `gst_base_video_codec_new_frame` call on a new element;
the frame is at the address 5. -/
def first_frame_state : State :=
  (gst_base_video_codec_new_frame 5 (initial_state 1 2 3)).2

/-- The frame `first_frame_state` holds at the address 5. -/
def first_frame : GstVideoFrame := { GstVideoFrame.zero with ref_count := 1 }

/-- A state whose frame at the address 5 has the largest count a `gint` holds. -/
def full_count_state : State :=
  { codec := gst_base_video_codec_init 1 2 3,
    mem := Mem.store (fun _ => none) 5 { example_frame with ref_count := 2147483647 },
    log := [] }

/-- A new element whose counter has reached `G_MAXINT`, the largest value the
sequence number member of a frame holds. -/
def last_gint_number_state : State :=
  { codec := { gst_base_video_codec_init 1 2 3 with system_frame_number := 2147483647 },
    mem := fun _ => none,
    log := [] }

/-- A new element whose counter has reached `G_MAXUINT64`. -/
def last_number_state : State :=
  { codec := { gst_base_video_codec_init 1 2 3 with
               system_frame_number := 18446744073709551615 },
    mem := fun _ => none,
    log := [] }

/-- An element whose frame list still holds the address 5 after the frame there was
destroyed by its last holder. -/
def dangling_state : State :=
  { codec := { gst_base_video_codec_init 1 2 3 with frames := [5] },
    mem := fun _ => none,
    log := [] }

/-- A parent `change_state` handler that leaves the state as it is and returns 1
(`GST_STATE_CHANGE_SUCCESS`). -/
def example_parent : ParentChangeState := fun s _ => (s, 1)

/-! ## Lemmas on the log -/

theorem buffer_unrefs_append (a b : List Effect) :
    buffer_unrefs (a ++ b) = buffer_unrefs a ++ buffer_unrefs b := by
  simp [buffer_unrefs]

theorem event_unrefs_append (a b : List Effect) :
    event_unrefs (a ++ b) = event_unrefs a ++ event_unrefs b := by
  simp [event_unrefs]

theorem caps_unrefs_append (a b : List Effect) :
    caps_unrefs (a ++ b) = caps_unrefs a ++ caps_unrefs b := by
  simp [caps_unrefs]

theorem notify_calls_append (a b : List Effect) :
    notify_calls (a ++ b) = notify_calls a ++ notify_calls b := by
  simp [notify_calls]

theorem slice_frees_append (a b : List Effect) :
    slice_frees (a ++ b) = slice_frees a ++ slice_frees b := by
  simp [slice_frees]

theorem event_unrefs_map (l : List Ptr) :
    event_unrefs (l.map Effect.gst_event_unref) = l := by
  induction l with
  | nil => rfl
  | cons a t ih =>
    have h : event_unrefs (Effect.gst_event_unref a :: t.map Effect.gst_event_unref)
        = a :: event_unrefs (t.map Effect.gst_event_unref) := rfl
    simp [h, ih]

theorem buffer_unrefs_map_event (l : List Ptr) :
    buffer_unrefs (l.map Effect.gst_event_unref) = [] := by
  induction l with
  | nil => rfl
  | cons a t ih =>
    have h : buffer_unrefs (Effect.gst_event_unref a :: t.map Effect.gst_event_unref)
        = buffer_unrefs (t.map Effect.gst_event_unref) := rfl
    simp [h, ih]

theorem notify_calls_map_event (l : List Ptr) :
    notify_calls (l.map Effect.gst_event_unref) = [] := by
  induction l with
  | nil => rfl
  | cons a t ih =>
    have h : notify_calls (Effect.gst_event_unref a :: t.map Effect.gst_event_unref)
        = notify_calls (t.map Effect.gst_event_unref) := rfl
    simp [h, ih]

theorem slice_frees_map_event (l : List Ptr) :
    slice_frees (l.map Effect.gst_event_unref) = [] := by
  induction l with
  | nil => rfl
  | cons a t ih =>
    have h : slice_frees (Effect.gst_event_unref a :: t.map Effect.gst_event_unref)
        = slice_frees (t.map Effect.gst_event_unref) := rfl
    simp [h, ih]

theorem buffer_unrefs_free_effects (frame : Ptr) (f : GstVideoFrame) :
    buffer_unrefs (free_effects frame f) =
      (if f.sink_buffer ≠ NULL then [f.sink_buffer] else []) ++
      (if f.src_buffer ≠ NULL then [f.src_buffer] else []) := by
  simp only [free_effects, buffer_unrefs_append, buffer_unrefs_map_event]
  by_cases h1 : f.sink_buffer = NULL <;> by_cases h2 : f.src_buffer = NULL <;>
    by_cases h3 : f.coder_hook_destroy_notify ≠ NULL ∧ f.coder_hook ≠ NULL <;>
    simp [h1, h2, h3, buffer_unrefs]

theorem event_unrefs_free_effects (frame : Ptr) (f : GstVideoFrame) :
    event_unrefs (free_effects frame f) = f.events := by
  simp only [free_effects, event_unrefs_append, event_unrefs_map]
  by_cases h1 : f.sink_buffer = NULL <;> by_cases h2 : f.src_buffer = NULL <;>
    by_cases h3 : f.coder_hook_destroy_notify ≠ NULL ∧ f.coder_hook ≠ NULL <;>
    simp [h1, h2, h3, event_unrefs]

theorem notify_calls_free_effects (frame : Ptr) (f : GstVideoFrame) :
    notify_calls (free_effects frame f) =
      if f.coder_hook_destroy_notify ≠ NULL ∧ f.coder_hook ≠ NULL then
        [(f.coder_hook_destroy_notify, f.coder_hook)] else [] := by
  simp only [free_effects, notify_calls_append, notify_calls_map_event]
  by_cases h1 : f.sink_buffer = NULL <;> by_cases h2 : f.src_buffer = NULL <;>
    by_cases h3 : f.coder_hook_destroy_notify ≠ NULL ∧ f.coder_hook ≠ NULL <;>
    simp [h1, h2, h3, notify_calls]

theorem slice_frees_free_effects (frame : Ptr) (f : GstVideoFrame) :
    slice_frees (free_effects frame f) = [frame] := by
  simp only [free_effects, slice_frees_append, slice_frees_map_event]
  by_cases h1 : f.sink_buffer = NULL <;> by_cases h2 : f.src_buffer = NULL <;>
    by_cases h3 : f.coder_hook_destroy_notify ≠ NULL ∧ f.coder_hook ≠ NULL <;>
    simp [h1, h2, h3, slice_frees]

theorem caps_unrefs_free_effects (frame : Ptr) (f : GstVideoFrame) :
    caps_unrefs (free_effects frame f) = [] := by
  have hm : ∀ l : List Ptr, caps_unrefs (l.map Effect.gst_event_unref) = [] := by
    intro l
    induction l with
    | nil => rfl
    | cons a t ih =>
      have h : caps_unrefs (Effect.gst_event_unref a :: t.map Effect.gst_event_unref)
          = caps_unrefs (t.map Effect.gst_event_unref) := rfl
      simp [h, ih]
  simp only [free_effects, caps_unrefs_append, hm]
  by_cases h1 : f.sink_buffer = NULL <;> by_cases h2 : f.src_buffer = NULL <;>
    by_cases h3 : f.coder_hook_destroy_notify ≠ NULL ∧ f.coder_hook ≠ NULL <;>
    simp [h1, h2, h3, caps_unrefs]

/-! ## Lemmas on stored values and on the frame memory -/

theorem to_gint_of_gint (n : Int) (h1 : G_MININT ≤ n) (h2 : n ≤ G_MAXINT) : to_gint n = n := by
  unfold G_MININT at h1
  unfold G_MAXINT at h2
  unfold to_gint
  omega

theorem to_gint_idem (n : Int) : to_gint (to_gint n) = to_gint n := by
  unfold to_gint
  omega

theorem store_same (m : Mem) (p : Ptr) (f : GstVideoFrame) : (m.store p f) p = some f := by
  simp [Mem.store]

theorem store_other (m : Mem) (p q : Ptr) (f : GstVideoFrame) (h : q ≠ p) :
    (m.store p f) q = m q := by
  simp [Mem.store, h]

theorem release_same (m : Mem) (p : Ptr) : (m.release p) p = none := by
  simp [Mem.release]

theorem release_other (m : Mem) (p q : Ptr) (h : q ≠ p) : (m.release p) q = m q := by
  simp [Mem.release, h]

theorem store_store (m : Mem) (p : Ptr) (f g : GstVideoFrame) :
    (m.store p f).store p g = m.store p g := by
  funext q
  by_cases h : q = p <;> simp [Mem.store, h]

theorem release_store (m : Mem) (p : Ptr) (f : GstVideoFrame) :
    (m.store p f).release p = m.release p := by
  funext q
  by_cases h : q = p <;> simp [Mem.store, Mem.release, h]

theorem store_self (m : Mem) (p : Ptr) (f : GstVideoFrame) (h : m p = some f) :
    m.store p f = m := by
  funext q
  by_cases hq : q = p
  · subst hq; simp [Mem.store, h]
  · simp [Mem.store, hq]

theorem free_effects_ref_count (frame : Ptr) (f : GstVideoFrame) (c : Int) :
    free_effects frame { f with ref_count := c } = free_effects frame f := rfl

/-! ## Lemmas on the frame functions -/

theorem free_allocated (frame : Ptr) (s : State) (f : GstVideoFrame) (hp : frame ≠ NULL)
    (hf : s.mem frame = some f) :
    _gst_video_frame_free frame s =
      some { codec := s.codec, mem := s.mem.release frame,
             log := s.log ++ free_effects frame f } := by
  simp [_gst_video_frame_free, hp, hf]

theorem ref_allocated (frame : Ptr) (s : State) (f : GstVideoFrame) (hp : frame ≠ NULL)
    (hf : s.mem frame = some f) :
    gst_video_frame_ref frame s =
      some (frame,
        { codec := s.codec,
          mem := s.mem.store frame { f with ref_count := to_gint (f.ref_count + 1) },
          log := s.log }) := by
  simp [gst_video_frame_ref, hp, hf]

theorem ref_released (frame : Ptr) (s : State) (hp : frame ≠ NULL) (hf : s.mem frame = none) :
    gst_video_frame_ref frame s = none := by
  simp [gst_video_frame_ref, hp, hf]

theorem unref_null (s : State) : gst_video_frame_unref NULL s = some s := by
  simp [gst_video_frame_unref]

theorem unref_released (frame : Ptr) (s : State) (hp : frame ≠ NULL)
    (hf : s.mem frame = none) : gst_video_frame_unref frame s = none := by
  simp [gst_video_frame_unref, hp, hf]

theorem unref_nonpos (frame : Ptr) (s : State) (f : GstVideoFrame)
    (hf : s.mem frame = some f) (h : f.ref_count ≤ 0) :
    gst_video_frame_unref frame s = some s := by
  have h2 : ¬ (0 < f.ref_count) := by omega
  by_cases hp : frame = NULL
  · simp [gst_video_frame_unref, hp]
  · simp [gst_video_frame_unref, hp, hf, h2]

theorem unref_last (frame : Ptr) (s : State) (f : GstVideoFrame) (hp : frame ≠ NULL)
    (hf : s.mem frame = some f) (h : f.ref_count = 1) :
    gst_video_frame_unref frame s =
      some { codec := s.codec, mem := s.mem.release frame,
             log := s.log ++ free_effects frame f } := by
  simp [gst_video_frame_unref, hp, hf, h, _gst_video_frame_free, store_same, release_store,
    free_effects_ref_count]

theorem unref_shared (frame : Ptr) (s : State) (f : GstVideoFrame) (hp : frame ≠ NULL)
    (hf : s.mem frame = some f) (h : 1 < f.ref_count) :
    gst_video_frame_unref frame s =
      some { codec := s.codec,
             mem := s.mem.store frame { f with ref_count := f.ref_count - 1 },
             log := s.log } := by
  have h0 : 0 < f.ref_count := by omega
  have h1 : ¬ (f.ref_count - 1 = 0) := by omega
  simp [gst_video_frame_unref, hp, hf, h0, h1]

/-- The four ways a call of `gst_video_frame_unref` returns. -/
theorem unref_cases (frame : Ptr) (s s1 : State) (h : gst_video_frame_unref frame s = some s1) :
    (frame = NULL ∧ s1 = s) ∨
    (frame ≠ NULL ∧ ∃ f, s.mem frame = some f ∧ f.ref_count ≤ 0 ∧ s1 = s) ∨
    (frame ≠ NULL ∧ ∃ f, s.mem frame = some f ∧ f.ref_count = 1 ∧
      s1 = { codec := s.codec, mem := s.mem.release frame,
             log := s.log ++ free_effects frame f }) ∨
    (frame ≠ NULL ∧ ∃ f, s.mem frame = some f ∧ 1 < f.ref_count ∧
      s1 = { codec := s.codec,
             mem := s.mem.store frame { f with ref_count := f.ref_count - 1 },
             log := s.log }) := by
  by_cases hp : frame = NULL
  · subst hp
    rw [unref_null] at h
    exact Or.inl ⟨rfl, (Option.some.inj h).symm⟩
  · cases hf : s.mem frame with
    | none => rw [unref_released frame s hp hf] at h; exact absurd h (by simp)
    | some f =>
      by_cases h0 : f.ref_count ≤ 0
      · rw [unref_nonpos frame s f hf h0] at h
        exact Or.inr (Or.inl ⟨hp, f, rfl, h0, (Option.some.inj h).symm⟩)
      · by_cases h1 : f.ref_count = 1
        · rw [unref_last frame s f hp hf h1] at h
          exact Or.inr (Or.inr (Or.inl ⟨hp, f, rfl, h1, (Option.some.inj h).symm⟩))
        · rw [unref_shared frame s f hp hf (by omega)] at h
          exact Or.inr (Or.inr (Or.inr ⟨hp, f, rfl, by omega, (Option.some.inj h).symm⟩))

/-! ## Lemmas on the loop over the frame list -/

theorem unref_frames_cons (g : Ptr) (rest : List Ptr) (s s' : State) :
    unref_frames (g :: rest) s = some s' ↔
      ∃ s1, gst_video_frame_unref g s = some s1 ∧ unref_frames rest s1 = some s' := by
  simp [unref_frames, Option.bind_eq_some]

/-- A call of `gst_video_frame_unref` leaves the element as it is. -/
theorem unref_codec (frame : Ptr) (s s1 : State) (h : gst_video_frame_unref frame s = some s1) :
    s1.codec = s.codec := by
  rcases unref_cases frame s s1 h with ⟨_, rfl⟩ | ⟨_, f, _, _, rfl⟩ | ⟨_, f, _, _, rfl⟩ |
    ⟨_, f, _, _, rfl⟩ <;> rfl

/-- A call of `gst_video_frame_unref` leaves every other block as it is. -/
theorem unref_mem_other (frame q : Ptr) (s s1 : State)
    (h : gst_video_frame_unref frame s = some s1) (hq : q ≠ frame) : s1.mem q = s.mem q := by
  rcases unref_cases frame s s1 h with ⟨_, rfl⟩ | ⟨_, f, _, _, rfl⟩ | ⟨_, f, _, _, rfl⟩ |
    ⟨_, f, _, _, rfl⟩
  · rfl
  · rfl
  · exact release_other _ _ _ hq
  · exact store_other _ _ _ _ hq

theorem unref_frames_codec (ps : List Ptr) (s s' : State) (h : unref_frames ps s = some s') :
    s'.codec = s.codec := by
  induction ps generalizing s with
  | nil => simp [unref_frames] at h; rw [← h]
  | cons g rest ih =>
    obtain ⟨s1, h1, h2⟩ := (unref_frames_cons g rest s s').mp h
    rw [ih s1 h2, unref_codec g s s1 h1]

theorem unref_frames_mem_not_mem (ps : List Ptr) (q : Ptr) (s s' : State)
    (h : unref_frames ps s = some s') (hq : q ∉ ps) : s'.mem q = s.mem q := by
  induction ps generalizing s with
  | nil => simp [unref_frames] at h; rw [← h]
  | cons g rest ih =>
    obtain ⟨s1, h1, h2⟩ := (unref_frames_cons g rest s s').mp h
    simp only [List.mem_cons, not_or] at hq
    rw [ih s1 h2 hq.2, unref_mem_other g q s s1 h1 hq.1]

theorem unref_frames_mem_null (ps : List Ptr) (s s' : State)
    (h : unref_frames ps s = some s') : s'.mem NULL = s.mem NULL := by
  induction ps generalizing s with
  | nil => simp [unref_frames] at h; rw [← h]
  | cons g rest ih =>
    obtain ⟨s1, h1, h2⟩ := (unref_frames_cons g rest s s').mp h
    rw [ih s1 h2]
    by_cases hg : g = NULL
    · subst hg
      rw [unref_null] at h1
      rw [← Option.some.inj h1]
    · exact unref_mem_other g NULL s s1 h1 (fun e => hg e.symm)

/-- What the loop leaves at an address: nothing where nothing was allocated; a frame
with a positive count has lost one reference for each entry the list has for it and
is released when that takes the count to zero; a frame whose count is not positive
is as it was. No other member of a frame changes. -/
theorem unref_frames_mem (ps : List Ptr) (q : Ptr) (s s' : State)
    (h : unref_frames ps s = some s') (hq : q ≠ NULL) :
    s'.mem q = (s.mem q).bind fun f =>
      if 0 < f.ref_count ∧ f.ref_count ≤ (ps.count q : Int) then none
      else some { f with ref_count :=
             if f.ref_count ≤ 0 then f.ref_count else f.ref_count - (ps.count q : Int) } := by
  induction ps generalizing s with
  | nil =>
    simp only [unref_frames, Option.some.injEq] at h
    subst h
    cases hm : s.mem q with
    | none => rfl
    | some f =>
      have hn : ¬ (0 < f.ref_count ∧ f.ref_count ≤ ((([] : List Ptr).count q : Nat) : Int)) := by
        simp only [List.count_nil, Nat.cast_zero]; omega
      simp only [Option.some_bind, if_neg hn]
      simp
  | cons g rest ih =>
    obtain ⟨s1, h1, h2⟩ := (unref_frames_cons g rest s s').mp h
    have ih' := ih s1 h2
    rw [ih']
    by_cases hqg : q = g
    · subst hqg
      have hcount : ((q :: rest).count q : Int) = (rest.count q : Int) + 1 := by
        simp [List.count_cons]
      rw [hcount]
      rcases unref_cases q s s1 h1 with ⟨hg, _⟩ | ⟨_, f, hf, hc, rfl⟩ | ⟨_, f, hf, hc, rfl⟩ |
        ⟨_, f, hf, hc, rfl⟩
      · exact absurd hg hq
      · rw [hf]
        have hn1 : ¬ (0 < f.ref_count ∧ f.ref_count ≤ (rest.count q : Int)) := by omega
        have hn2 : ¬ (0 < f.ref_count ∧ f.ref_count ≤ (rest.count q : Int) + 1) := by omega
        simp only [Option.some_bind, if_neg hn1, if_neg hn2, if_pos hc]
      · rw [hf]
        have hp2 : 0 < f.ref_count ∧ f.ref_count ≤ (rest.count q : Int) + 1 := by omega
        simp only [release_same, Option.none_bind, Option.some_bind, if_pos hp2]
      · rw [hf]
        simp only [store_same, Option.some_bind]
        by_cases hk : f.ref_count ≤ (rest.count q : Int) + 1
        · have hp1 : 0 < f.ref_count - 1 ∧ f.ref_count - 1 ≤ (rest.count q : Int) := by omega
          have hp2 : 0 < f.ref_count ∧ f.ref_count ≤ (rest.count q : Int) + 1 := by omega
          rw [if_pos hp1, if_pos hp2]
        · have hn1 : ¬ (0 < f.ref_count - 1 ∧ f.ref_count - 1 ≤ (rest.count q : Int)) := by
            omega
          have hn2 : ¬ (0 < f.ref_count ∧ f.ref_count ≤ (rest.count q : Int) + 1) := by omega
          have hn3 : ¬ (f.ref_count - 1 ≤ 0) := by omega
          have hn4 : ¬ (f.ref_count ≤ 0) := by omega
          rw [if_neg hn1, if_neg hn2, if_neg hn3, if_neg hn4]
          simp only [Option.some.injEq, GstVideoFrame.mk.injEq, and_true]
          omega
    · have hgq : ¬ (g = q) := fun e => hqg e.symm
      have hcount : (g :: rest).count q = rest.count q := by
        simp [List.count_cons, hgq]
      rw [hcount, unref_mem_other g q s s1 h1 hqg]

theorem destroyed_append (q : Ptr) (codec : GstBaseVideoCodec) (mem : Mem) (log : List Effect)
    (frame : Ptr) (f : GstVideoFrame) :
    destroyed q { codec := codec, mem := mem, log := log ++ free_effects frame f } =
      destroyed q { codec := codec, mem := mem, log := log } + (if q = frame then 1 else 0) := by
  unfold destroyed
  simp only [slice_frees_append, slice_frees_free_effects, List.count_append]
  by_cases h : q = frame
  · subst h; simp
  · have h2 : ¬ (frame = q) := fun e => h e.symm
    simp [List.count_cons, h, h2]

/-- How often the loop destroys the frame at an address: once when a frame with a
positive count is allocated there and the list has at least that many entries for
it, and not at all otherwise. -/
theorem unref_frames_destroyed (ps : List Ptr) (q : Ptr) (s s' : State)
    (h : unref_frames ps s = some s') :
    destroyed q s' = destroyed q s +
      (s.mem q).elim 0 (fun f =>
        if q ≠ NULL ∧ 0 < f.ref_count ∧ f.ref_count ≤ (ps.count q : Int) then 1 else 0) := by
  induction ps generalizing s with
  | nil =>
    simp only [unref_frames, Option.some.injEq] at h
    subst h
    cases hm : s.mem q with
    | none => rfl
    | some f =>
      have hn : ¬ (q ≠ NULL ∧ 0 < f.ref_count ∧
          f.ref_count ≤ ((([] : List Ptr).count q : Nat) : Int)) := by
        simp only [List.count_nil, Nat.cast_zero]; omega
      simp only [Option.elim_some, if_neg hn, Nat.add_zero]
  | cons g rest ih =>
    obtain ⟨s1, h1, h2⟩ := (unref_frames_cons g rest s s').mp h
    rw [ih s1 h2]
    by_cases hqg : q = g
    · subst hqg
      have hcount : ((q :: rest).count q : Int) = (rest.count q : Int) + 1 := by
        simp [List.count_cons]
      rw [hcount]
      rcases unref_cases q s s1 h1 with ⟨hg, rfl⟩ | ⟨_, f, hf, hc, rfl⟩ | ⟨hg, f, hf, hc, rfl⟩ |
        ⟨hg, f, hf, hc, rfl⟩
      · cases hm : s1.mem q with
        | none => rfl
        | some f =>
          have hn1 : ¬ (q ≠ NULL ∧ 0 < f.ref_count ∧ f.ref_count ≤ (rest.count q : Int)) :=
            fun e => e.1 hg
          have hn2 : ¬ (q ≠ NULL ∧ 0 < f.ref_count ∧ f.ref_count ≤ (rest.count q : Int) + 1) :=
            fun e => e.1 hg
          simp only [Option.elim_some, if_neg hn1, if_neg hn2]
      · rw [hf]
        have hn1 : ¬ (q ≠ NULL ∧ 0 < f.ref_count ∧ f.ref_count ≤ (rest.count q : Int)) := by
          omega
        have hn2 : ¬ (q ≠ NULL ∧ 0 < f.ref_count ∧ f.ref_count ≤ (rest.count q : Int) + 1) := by
          omega
        simp only [Option.elim_some, if_neg hn1, if_neg hn2]
      · rw [hf, destroyed_append]
        have hp2 : q ≠ NULL ∧ 0 < f.ref_count ∧ f.ref_count ≤ (rest.count q : Int) + 1 :=
          ⟨hg, by omega, by omega⟩
        simp only [release_same, Option.elim_none, Option.elim_some, if_pos hp2, if_true,
          Nat.add_zero]
        rfl
      · rw [hf]
        simp only [store_same, Option.elim_some]
        have hd : ∀ m : Mem, destroyed q ⟨s.codec, m, s.log⟩ = destroyed q s := fun _ => rfl
        rw [hd]
        by_cases hk : f.ref_count ≤ (rest.count q : Int) + 1
        · have hp1 : q ≠ NULL ∧ 0 < f.ref_count - 1 ∧ f.ref_count - 1 ≤ (rest.count q : Int) :=
            ⟨hg, by omega, by omega⟩
          have hp2 : q ≠ NULL ∧ 0 < f.ref_count ∧ f.ref_count ≤ (rest.count q : Int) + 1 :=
            ⟨hg, by omega, by omega⟩
          rw [if_pos hp1, if_pos hp2]
        · have hn1 : ¬ (q ≠ NULL ∧ 0 < f.ref_count - 1 ∧
              f.ref_count - 1 ≤ (rest.count q : Int)) := fun e => hk (by omega)
          have hn2 : ¬ (q ≠ NULL ∧ 0 < f.ref_count ∧
              f.ref_count ≤ (rest.count q : Int) + 1) := fun e => hk e.2.2
          rw [if_neg hn1, if_neg hn2]
    · have hgq : ¬ (g = q) := fun e => hqg e.symm
      have hcount : (g :: rest).count q = rest.count q := by
        simp [List.count_cons, hgq]
      rw [hcount, unref_mem_other g q s s1 h1 hqg]
      have hd : destroyed q s1 = destroyed q s := by
        rcases unref_cases g s s1 h1 with ⟨_, rfl⟩ | ⟨_, f, _, _, rfl⟩ | ⟨_, f, _, _, rfl⟩ |
          ⟨_, f, _, _, rfl⟩
        · rfl
        · rfl
        · rw [destroyed_append, if_neg hqg]; rfl
        · rfl
      rw [hd]

theorem unref_frames_caps_unrefs (ps : List Ptr) (s s' : State)
    (h : unref_frames ps s = some s') : caps_unrefs s'.log = caps_unrefs s.log := by
  induction ps generalizing s with
  | nil => simp [unref_frames] at h; rw [← h]
  | cons g rest ih =>
    obtain ⟨s1, h1, h2⟩ := (unref_frames_cons g rest s s').mp h
    rw [ih s1 h2]
    rcases unref_cases g s s1 h1 with ⟨_, rfl⟩ | ⟨_, f, _, _, rfl⟩ | ⟨_, f, _, _, rfl⟩ |
      ⟨_, f, _, _, rfl⟩
    · rfl
    · rfl
    · simp only [caps_unrefs_append, caps_unrefs_free_effects, List.append_nil]
    · rfl

theorem unref_with_codec (g : Ptr) (s : State) (c : GstBaseVideoCodec) :
    gst_video_frame_unref g { s with codec := c } =
      (gst_video_frame_unref g s).map fun s1 => { s1 with codec := c } := by
  by_cases hp : g = NULL
  · simp [gst_video_frame_unref, hp]
  · cases hf : s.mem g with
    | none => simp [gst_video_frame_unref, hp, hf]
    | some f =>
      by_cases h0 : 0 < f.ref_count
      · by_cases h1 : f.ref_count - 1 = 0
        · simp [gst_video_frame_unref, hp, hf, h0, h1, _gst_video_frame_free, store_same]
        · simp [gst_video_frame_unref, hp, hf, h0, h1]
      · simp [gst_video_frame_unref, hp, hf, h0]

theorem unref_frames_with_codec (ps : List Ptr) (s : State) (c : GstBaseVideoCodec) :
    unref_frames ps { s with codec := c } =
      (unref_frames ps s).map fun s2 => { s2 with codec := c } := by
  induction ps generalizing s with
  | nil => rfl
  | cons g rest ih =>
    simp only [unref_frames]
    rw [unref_with_codec]
    cases hu : gst_video_frame_unref g s with
    | none => rfl
    | some s1 =>
      simp only [Option.map_some', Option.some_bind]
      exact ih s1

theorem count_cons_self_int (q : Ptr) (rest : List Ptr) :
    ((q :: rest).count q : Int) = (rest.count q : Int) + 1 := by
  simp [List.count_cons]

theorem count_cons_ne (g q : Ptr) (rest : List Ptr) (h : q ≠ g) :
    (g :: rest).count q = rest.count q := by
  have hgq : ¬ (g = q) := fun e => h e.symm
  simp [List.count_cons, hgq]

/-- The loop over a list that starts with an entry whose call changes nothing. -/
theorem can_unref_all_cons_skip (g : Ptr) (rest : List Ptr) (s : State)
    (hg : g = NULL ∨ ∃ f, s.mem g = some f ∧ f.ref_count ≤ 0) :
    can_unref_all rest s ↔ can_unref_all (g :: rest) s := by
  constructor
  · intro h q hq
    by_cases hqg : q = g
    · subst hqg
      rcases hg with hn | ⟨f, hf, hc⟩
      · exact Or.inl hn
      · exact Or.inr ⟨f, hf, Or.inl hc⟩
    · have hq2 : q ∈ rest := by
        rcases List.mem_cons.mp hq with e | e
        · exact absurd e hqg
        · exact e
      rw [count_cons_ne g q rest hqg]
      exact h q hq2
  · intro h q hq
    rcases h q (List.mem_cons_of_mem g hq) with hn | ⟨f, hf, hc⟩
    · exact Or.inl hn
    · refine Or.inr ⟨f, hf, ?_⟩
      rcases hc with hc | hc
      · exact Or.inl hc
      · by_cases hqg : q = g
        · subst hqg
          rw [count_cons_self_int] at hc
          exact Or.inr (by omega)
        · rw [count_cons_ne g q rest hqg] at hc
          exact Or.inr hc

/-- The loop over a list that starts with the last reference of a frame. -/
theorem can_unref_all_cons_last (g : Ptr) (rest : List Ptr) (s : State) (f : GstVideoFrame)
    (codec : GstBaseVideoCodec) (log : List Effect)
    (hp : g ≠ NULL) (hf : s.mem g = some f) (hc : f.ref_count = 1) :
    can_unref_all rest { codec := codec, mem := s.mem.release g, log := log } ↔
      can_unref_all (g :: rest) s := by
  constructor
  · intro h
    have hnot : g ∉ rest := by
      intro hin
      rcases h g hin with hn | ⟨f1, hf1, _⟩
      · exact hp hn
      · rw [show (State.mk codec (s.mem.release g) log).mem g = none from release_same _ _] at hf1
        exact absurd hf1 (by simp)
    intro q hq
    by_cases hqg : q = g
    · subst hqg
      refine Or.inr ⟨f, hf, Or.inr ?_⟩
      rw [count_cons_self_int, List.count_eq_zero_of_not_mem hnot, hc]
      simp
    · have hq2 : q ∈ rest := by
        rcases List.mem_cons.mp hq with e | e
        · exact absurd e hqg
        · exact e
      rw [count_cons_ne g q rest hqg]
      rcases h q hq2 with hn | ⟨f1, hf1, hc1⟩
      · exact Or.inl hn
      · rw [show (State.mk codec (s.mem.release g) log).mem q = s.mem q from
          release_other _ _ _ hqg] at hf1
        exact Or.inr ⟨f1, hf1, hc1⟩
  · intro h
    have hnot : g ∉ rest := by
      rcases h g (List.mem_cons_self g rest) with hn | ⟨f1, hf1, hc1⟩
      · exact absurd hn hp
      · rw [hf] at hf1
        have e : f = f1 := Option.some.inj hf1
        subst e
        rw [count_cons_self_int] at hc1
        have hz : rest.count g = 0 := by omega
        exact List.count_eq_zero.mp hz
    intro q hq
    have hqg : q ≠ g := fun e => hnot (e ▸ hq)
    rcases h q (List.mem_cons_of_mem g hq) with hn | ⟨f1, hf1, hc1⟩
    · exact Or.inl hn
    · rw [count_cons_ne g q rest hqg] at hc1
      refine Or.inr ⟨f1, ?_, hc1⟩
      rw [show (State.mk codec (s.mem.release g) log).mem q = s.mem q from
        release_other _ _ _ hqg]
      exact hf1

/-- The loop over a list that starts with a reference of a shared frame. -/
theorem can_unref_all_cons_shared (g : Ptr) (rest : List Ptr) (s : State) (f : GstVideoFrame)
    (codec : GstBaseVideoCodec) (log : List Effect)
    (hp : g ≠ NULL) (hf : s.mem g = some f) (hc : 1 < f.ref_count) :
    can_unref_all rest
        { codec := codec, mem := s.mem.store g { f with ref_count := f.ref_count - 1 },
          log := log } ↔
      can_unref_all (g :: rest) s := by
  constructor
  · intro h q hq
    by_cases hqg : q = g
    · subst hqg
      refine Or.inr ⟨f, hf, Or.inr ?_⟩
      rw [count_cons_self_int]
      by_cases hin : q ∈ rest
      · rcases h q hin with hn | ⟨f1, hf1, hc1⟩
        · exact absurd hn hp
        · rw [show (State.mk codec (s.mem.store q { f with ref_count := f.ref_count - 1 })
              log).mem q = some { f with ref_count := f.ref_count - 1 } from store_same _ _ _]
            at hf1
          have e := Option.some.inj hf1
          rw [← e] at hc1
          simp only at hc1
          omega
      · rw [List.count_eq_zero_of_not_mem hin]
        simp only [Nat.cast_zero]
        omega
    · have hq2 : q ∈ rest := by
        rcases List.mem_cons.mp hq with e | e
        · exact absurd e hqg
        · exact e
      rw [count_cons_ne g q rest hqg]
      rcases h q hq2 with hn | ⟨f1, hf1, hc1⟩
      · exact Or.inl hn
      · rw [show (State.mk codec (s.mem.store g { f with ref_count := f.ref_count - 1 })
            log).mem q = s.mem q from store_other _ _ _ _ hqg] at hf1
        exact Or.inr ⟨f1, hf1, hc1⟩
  · intro h q hq
    by_cases hqg : q = g
    · subst hqg
      rcases h q (List.mem_cons_self q rest) with hn | ⟨f1, hf1, hc1⟩
      · exact absurd hn hp
      · rw [hf] at hf1
        have e : f = f1 := Option.some.inj hf1
        subst e
        rw [count_cons_self_int] at hc1
        refine Or.inr ⟨{ f with ref_count := f.ref_count - 1 }, store_same _ _ _, Or.inr ?_⟩
        simp only
        omega
    · rcases h q (List.mem_cons_of_mem g hq) with hn | ⟨f1, hf1, hc1⟩
      · exact Or.inl hn
      · rw [count_cons_ne g q rest hqg] at hc1
        refine Or.inr ⟨f1, ?_, hc1⟩
        rw [show (State.mk codec (s.mem.store g { f with ref_count := f.ref_count - 1 })
          log).mem q = s.mem q from store_other _ _ _ _ hqg]
        exact hf1

/-- The loop returns exactly when every entry of the list can take its call. -/
theorem unref_frames_defined_iff (ps : List Ptr) (s : State) :
    (∃ s', unref_frames ps s = some s') ↔ can_unref_all ps s := by
  induction ps generalizing s with
  | nil =>
    constructor
    · intro _ q hq
      exact absurd hq (List.not_mem_nil q)
    · intro _
      exact ⟨s, rfl⟩
  | cons g rest ih =>
    have hstep : (∃ s', unref_frames (g :: rest) s = some s') ↔
        ∃ s1, gst_video_frame_unref g s = some s1 ∧ can_unref_all rest s1 := by
      constructor
      · rintro ⟨s', h⟩
        obtain ⟨s1, h1, h2⟩ := (unref_frames_cons g rest s s').mp h
        exact ⟨s1, h1, (ih s1).mp ⟨s', h2⟩⟩
      · rintro ⟨s1, h1, h2⟩
        obtain ⟨s', h3⟩ := (ih s1).mpr h2
        exact ⟨s', (unref_frames_cons g rest s s').mpr ⟨s1, h1, h3⟩⟩
    rw [hstep]
    by_cases hp : g = NULL
    · have hu : gst_video_frame_unref g s = some s := by rw [hp]; exact unref_null s
      rw [← can_unref_all_cons_skip g rest s (Or.inl hp)]
      constructor
      · rintro ⟨s1, h1, h2⟩
        rw [hu] at h1
        rw [Option.some.inj h1]
        exact h2
      · intro h
        exact ⟨s, hu, h⟩
    · cases hf : s.mem g with
      | none =>
        constructor
        · rintro ⟨s1, h1, _⟩
          rw [unref_released g s hp hf] at h1
          exact absurd h1 (by simp)
        · intro h
          rcases h g (List.mem_cons_self g rest) with hn | ⟨f1, hf1, _⟩
          · exact absurd hn hp
          · rw [hf] at hf1
            exact absurd hf1 (by simp)
      | some f =>
        by_cases h0 : f.ref_count ≤ 0
        · have hu := unref_nonpos g s f hf h0
          rw [← can_unref_all_cons_skip g rest s (Or.inr ⟨f, hf, h0⟩)]
          constructor
          · rintro ⟨s1, h1, h2⟩
            rw [hu] at h1
            rw [Option.some.inj h1]
            exact h2
          · intro h
            exact ⟨s, hu, h⟩
        · by_cases h1 : f.ref_count = 1
          · have hu := unref_last g s f hp hf h1
            rw [← can_unref_all_cons_last g rest s f s.codec (s.log ++ free_effects g f)
              hp hf h1]
            constructor
            · rintro ⟨s1, h2, h3⟩
              rw [hu] at h2
              rw [Option.some.inj h2]
              exact h3
            · intro h
              exact ⟨_, hu, h⟩
          · have hgt : 1 < f.ref_count := by omega
            have hu := unref_shared g s f hp hf hgt
            rw [← can_unref_all_cons_shared g rest s f s.codec s.log hp hf hgt]
            constructor
            · rintro ⟨s1, h2, h3⟩
              rw [hu] at h2
              rw [Option.some.inj h2]
              exact h3
            · intro h
              exact ⟨_, hu, h⟩

/-! ## Lemmas on frame creation and reset -/

theorem to_gint_to_guint64 (m : Nat) : to_gint ((to_guint64 m : Nat) : Int) = to_gint (m : Int) := by
  unfold to_gint to_guint64
  omega

theorem to_gint_natCast (n : Nat) (h : n < 2147483648) : to_gint (n : Int) = (n : Int) := by
  unfold to_gint
  omega

theorem to_guint64_of_lt (n : Nat) (h : n < 18446744073709551616) : to_guint64 n = n := by
  unfold to_guint64
  omega

theorem map_to_gint_range_congr (a b n : Nat) (h : to_gint (a : Int) = to_gint (b : Int)) :
    (List.range' a n).map (fun m : Nat => to_gint (m : Int)) =
      (List.range' b n).map (fun m : Nat => to_gint (m : Int)) := by
  induction n generalizing a b with
  | zero => rfl
  | succ n ih =>
    have h2 : to_gint ((a + 1 : Nat) : Int) = to_gint ((b + 1 : Nat) : Int) := by
      unfold to_gint at h ⊢
      omega
    simp only [List.range'_succ, List.map_cons, h, ih (a + 1) (b + 1) h2]

theorem map_to_gint_range_small (a n : Nat) (h : a + n ≤ 2147483648) :
    (List.range' a n).map (fun m : Nat => to_gint (m : Int)) =
      (List.range' a n).map (fun m : Nat => (m : Int)) := by
  apply List.map_congr_left
  intro m hm
  have hlt := (List.mem_range'_1.mp hm).2
  exact to_gint_natCast m (by omega)

theorem pairwise_lt_map_range (a n : Nat) :
    List.Pairwise (fun x y : Int => x < y) ((List.range' a n).map (fun m : Nat => (m : Int))) := by
  rw [List.pairwise_map]
  exact (List.pairwise_lt_range' a n).imp (fun h => by omega)

theorem nodup_map_range (a n : Nat) :
    ((List.range' a n).map (fun m : Nat => (m : Int))).Nodup :=
  (pairwise_lt_map_range a n).imp (fun h => by omega)

theorem new_frame_frame (block : Ptr) (s : State) :
    (gst_base_video_codec_new_frame block s).2.mem (gst_base_video_codec_new_frame block s).1 =
      some { GstVideoFrame.zero with
             ref_count := 1,
             system_frame_number := to_gint (s.codec.system_frame_number : Int) } := by
  simp [gst_base_video_codec_new_frame, store_same, STREAM_LOCK]

theorem new_frame_codec (block : Ptr) (s : State) :
    (gst_base_video_codec_new_frame block s).2.codec =
      { s.codec with system_frame_number := to_guint64 (s.codec.system_frame_number + 1) } := by
  simp [gst_base_video_codec_new_frame, STREAM_LOCK, STREAM_UNLOCK]

theorem new_frame_mem_other (block q : Ptr) (s : State) (h : q ≠ block) :
    (gst_base_video_codec_new_frame block s).2.mem q = s.mem q := by
  simp [gst_base_video_codec_new_frame, Mem.store, h]

theorem new_frames_numbers (blocks : List Ptr) (s : State) :
    (new_frames blocks s).1 =
      (List.range' s.codec.system_frame_number blocks.length).map
        (fun m : Nat => to_gint (m : Int)) := by
  induction blocks generalizing s with
  | nil => rfl
  | cons b bs ih =>
    have h := ih (gst_base_video_codec_new_frame b s).2
    rw [new_frame_codec] at h
    simp only [new_frames, List.length_cons, List.range'_succ, List.map_cons, new_frame_frame,
      Option.map_some', Option.toList_some, List.singleton_append]
    rw [h]
    congr 1
    apply map_to_gint_range_congr
    exact to_gint_to_guint64 _

theorem new_frames_counter (blocks : List Ptr) (s : State)
    (h : s.codec.system_frame_number + blocks.length < 18446744073709551616) :
    (new_frames blocks s).2.codec.system_frame_number
      = s.codec.system_frame_number + blocks.length := by
  induction blocks generalizing s with
  | nil => rfl
  | cons b bs ih =>
    simp only [List.length_cons] at h
    have hc : (gst_base_video_codec_new_frame b s).2.codec.system_frame_number
        = s.codec.system_frame_number + 1 := by
      rw [new_frame_codec]
      exact to_guint64_of_lt _ (by omega)
    have h2 := ih (gst_base_video_codec_new_frame b s).2 (by rw [hc]; omega)
    simp only [new_frames, List.length_cons]
    rw [h2, hc]
    omega

/-- `gst_base_video_codec_reset` as the loop over the frame list followed by the
stores into the element. -/
theorem reset_eq (s : State) :
    gst_base_video_codec_reset s =
      (unref_frames s.codec.frames s).map fun s2 =>
        { codec :=
            { s.codec with
              frames := [], bytes := 0, time := 0,
              state := { format := GST_VIDEO_FORMAT_UNKNOWN, caps := NULL, codec_data := NULL,
                         other := List.replicate s.codec.state.other.length 0 } },
          mem := s2.mem,
          log := s2.log ++
            (if s.codec.state.codec_data ≠ NULL then
               [Effect.gst_buffer_unref s.codec.state.codec_data] else []) ++
            (if s.codec.state.caps ≠ NULL then
               [Effect.gst_caps_unref s.codec.state.caps] else []) } := by
  unfold gst_base_video_codec_reset
  simp only [STREAM_LOCK]
  rw [unref_frames_with_codec]
  cases hu : unref_frames s.codec.frames s with
  | none => rfl
  | some s2 =>
    have hc := unref_frames_codec _ _ _ hu
    simp [STREAM_UNLOCK, replace_with_null, hc]

theorem reset_defined (s : State) (h : can_unref_all s.codec.frames s) :
    ∃ s', gst_base_video_codec_reset s = some s' := by
  obtain ⟨s2, h2⟩ := (unref_frames_defined_iff s.codec.frames s).mpr h
  rw [reset_eq, h2]
  exact ⟨_, rfl⟩

theorem reset_codec (s s' : State) (h : gst_base_video_codec_reset s = some s') :
    s'.codec =
      { s.codec with
        frames := [], bytes := 0, time := 0,
        state := { format := GST_VIDEO_FORMAT_UNKNOWN, caps := NULL, codec_data := NULL,
                   other := List.replicate s.codec.state.other.length 0 } } := by
  rw [reset_eq] at h
  cases hu : unref_frames s.codec.frames s with
  | none => rw [hu] at h; exact absurd h (by simp)
  | some s2 =>
    rw [hu] at h
    simp only [Option.map_some', Option.some.injEq] at h
    rw [← h]

theorem can_unref_all_nil (s : State) : can_unref_all [] s := by
  intro q hq
  exact absurd hq (List.not_mem_nil q)

theorem can_unref_all_new_frame (block : Ptr) (s : State)
    (h : can_unref_all s.codec.frames s) (hb : block ∉ s.codec.frames) :
    can_unref_all (gst_base_video_codec_new_frame block s).2.codec.frames
      (gst_base_video_codec_new_frame block s).2 := by
  have hfr : (gst_base_video_codec_new_frame block s).2.codec.frames = s.codec.frames := rfl
  rw [hfr]
  intro q hq
  have hqb : q ≠ block := fun e => hb (e ▸ hq)
  rw [new_frame_mem_other block q s hqb]
  exact h q hq

theorem not_mem_frames_of_fresh (block : Ptr) (s : State)
    (h : can_unref_all s.codec.frames s) (hn : block ≠ NULL) (hf : s.mem block = none) :
    block ∉ s.codec.frames := by
  intro hin
  rcases h block hin with e | ⟨f, hm, _⟩
  · exact hn e
  · rw [hf] at hm
    exact absurd hm (by simp)

theorem run_codec_ops_numbers (ops : List CodecOp) (s : State)
    (h : can_unref_all s.codec.frames s) (hb : fresh_blocks ops s = true) :
    ∃ s', run_codec_ops ops s =
        some ((List.range' s.codec.system_frame_number (new_frame_calls ops)).map
                (fun m : Nat => to_gint (m : Int)), s') ∧
      (s.codec.system_frame_number + new_frame_calls ops < 18446744073709551616 →
        s'.codec.system_frame_number = s.codec.system_frame_number + new_frame_calls ops) := by
  induction ops generalizing s with
  | nil => exact ⟨s, rfl, fun _ => rfl⟩
  | cons op ops ih =>
    cases op with
    | new_frame b =>
      simp only [fresh_blocks, Bool.and_eq_true, decide_eq_true_eq, Option.isNone_iff_eq_none]
        at hb
      have hb1 : b ∉ s.codec.frames := not_mem_frames_of_fresh b s h hb.1.1 hb.1.2
      obtain ⟨s', h1, h2⟩ := ih (gst_base_video_codec_new_frame b s).2
        (can_unref_all_new_frame b s h hb1) hb.2
      rw [new_frame_codec] at h1 h2
      refine ⟨s', ?_, ?_⟩
      · simp only [run_codec_ops, new_frame_calls, List.range'_succ, List.map_cons,
          new_frame_frame, Option.map_some', Option.toList_some, List.singleton_append, h1]
        congr 3
        apply map_to_gint_range_congr
        exact to_gint_to_guint64 _
      · intro hlt
        simp only [new_frame_calls] at hlt ⊢
        have e := to_guint64_of_lt (s.codec.system_frame_number + 1) (by omega)
        simp only [e] at h2
        rw [h2 (by omega)]
        omega
    | reset =>
      obtain ⟨s1, hs1⟩ := reset_defined s h
      have hc := reset_codec s s1 hs1
      have hfr : s1.codec.frames = [] := by rw [hc]
      have hcnt : s1.codec.system_frame_number = s.codec.system_frame_number := by rw [hc]
      have hb2 : fresh_blocks ops s1 = true := by
        simp only [fresh_blocks, hs1] at hb
        exact hb
      obtain ⟨s', h1, h2⟩ := ih s1 (by rw [hfr]; exact can_unref_all_nil s1) hb2
      rw [hcnt] at h1 h2
      refine ⟨s', ?_, ?_⟩
      · simp only [run_codec_ops, new_frame_calls, hs1, Option.some_bind, h1]
      · simpa only [new_frame_calls] using h2

/-! ## Lemmas on sequences of ref and unref calls -/

theorem run_ops_append (frame : Ptr) (pre post : List RefOp) (s : State) :
    run_ops frame (pre ++ post) s = (run_ops frame pre s).bind (run_ops frame post) := by
  induction pre generalizing s with
  | nil => rfl
  | cons op pre ih =>
    simp only [List.cons_append, run_ops]
    cases h : apply_op frame s op with
    | none => rfl
    | some s1 => simp only [Option.some_bind]; exact ih s1

theorem run_ops_single (frame : Ptr) (op : RefOp) (s : State) :
    run_ops frame [op] s = apply_op frame s op := by
  simp only [run_ops]
  cases h : apply_op frame s op with
  | none => rfl
  | some s1 => rfl

theorem run_ops_concat (frame : Ptr) (pre : List RefOp) (op : RefOp) (s : State) :
    run_ops frame (pre ++ [op]) s = (run_ops frame pre s).bind (fun s1 => apply_op frame s1 op) := by
  rw [run_ops_append]
  congr 1
  funext s1
  exact run_ops_single frame op s1

theorem refs_append (a b : List RefOp) : refs (a ++ b) = refs a + refs b := by
  simp [refs, List.count_append]

theorem unrefs_append (a b : List RefOp) : unrefs (a ++ b) = unrefs a + unrefs b := by
  simp [unrefs, List.count_append]

theorem never_below_zero_initial (pre post : List RefOp) (h : never_below_zero (pre ++ post)) :
    never_below_zero pre := by
  intro k hk
  have h2 := h k (by simp only [List.length_append]; omega)
  rwa [List.take_append_of_le_length hk] at h2

theorem never_below_zero_whole (ops : List RefOp) (h : never_below_zero ops) :
    unrefs ops ≤ refs ops + 1 := by
  have h2 := h ops.length (Nat.le_refl _)
  rwa [List.take_length] at h2

theorem live_at_each_call_initial (pre post : List RefOp) (h : live_at_each_call (pre ++ post)) :
    live_at_each_call pre := by
  intro k hk
  have h2 := h k (by simp only [List.length_append]; omega)
  rwa [List.take_append_of_le_length (Nat.le_of_lt hk)] at h2

theorem live_at_each_call_last (pre : List RefOp) (op : RefOp)
    (h : live_at_each_call (pre ++ [op])) : unrefs pre ≤ refs pre := by
  have h2 := h pre.length (by simp)
  rwa [List.take_append_of_le_length (Nat.le_refl _), List.take_length] at h2

theorem live_at_each_call_concat (pre : List RefOp) (op : RefOp)
    (h1 : live_at_each_call pre) (h2 : unrefs pre ≤ refs pre) :
    live_at_each_call (pre ++ [op]) := by
  intro k hk
  simp only [List.length_append, List.length_singleton] at hk
  by_cases hk2 : k < pre.length
  · rw [List.take_append_of_le_length (Nat.le_of_lt hk2)]
    exact h1 k hk2
  · have hk3 : k = pre.length := by omega
    subst hk3
    rw [List.take_append_of_le_length (Nat.le_refl _), List.take_length]
    exact h2

theorem live_imp_never_below_zero (ops : List RefOp) (h : live_at_each_call ops) :
    never_below_zero ops := by
  induction ops using List.reverseRecOn with
  | nil =>
    intro k hk
    simp at hk
    subst hk
    simp [unrefs, refs]
  | append_singleton init op ih =>
    have hi := ih (live_at_each_call_initial init [op] h)
    have hl := live_at_each_call_last init op h
    intro k hk
    by_cases hk2 : k ≤ init.length
    · rw [List.take_append_of_le_length hk2]; exact hi k hk2
    · have hk3 : (init ++ [op]).length ≤ k := by
        simp only [List.length_append, List.length_singleton]; omega
      rw [List.take_of_length_le hk3, refs_append, unrefs_append]
      have hu : unrefs [op] ≤ 1 := by cases op <;> decide
      omega

theorem apply_op_released (frame : Ptr) (s : State) (op : RefOp) (hp : frame ≠ NULL)
    (hf : s.mem frame = none) : apply_op frame s op = none := by
  cases op with
  | ref => simp [apply_op, ref_released frame s hp hf]
  | unref => exact unref_released frame s hp hf

/-- The state a sequence of ref and unref calls leaves, on a frame that starts with
the count 1: while no call is made after the unref that took the count to zero the
count is `1 + refs - unrefs`, the frame is released, with the calls of its
destruction made, exactly when that is zero, and nothing else changes; a sequence
with a call after that unref has no defined result. -/
theorem run_ops_result (frame : Ptr) (s : State) (f : GstVideoFrame) (ops : List RefOp)
    (hp : frame ≠ NULL) (hf : s.mem frame = some f) (h1 : f.ref_count = 1)
    (hops : never_below_zero ops) (hmax : (refs ops : Int) < G_MAXINT) :
    (live_at_each_call ops →
      run_ops frame ops s = some
        (if 1 + (refs ops : Int) - (unrefs ops : Int) = 0 then
           { codec := s.codec, mem := s.mem.release frame,
             log := s.log ++ free_effects frame f }
         else
           { codec := s.codec,
             mem := s.mem.store frame
               { f with ref_count := 1 + (refs ops : Int) - (unrefs ops : Int) },
             log := s.log })) ∧
    (¬ live_at_each_call ops → run_ops frame ops s = none) := by
  induction ops using List.reverseRecOn with
  | nil =>
    refine ⟨fun _ => ?_, fun h => absurd (fun k hk => absurd hk (by simp)) h⟩
    have hne : ¬ (1 + ((refs [] : Nat) : Int) - ((unrefs [] : Nat) : Int) = 0) := by
      simp [refs, unrefs]
    rw [if_neg hne]
    have hfe : ({ f with ref_count := 1 + ((refs [] : Nat) : Int) - ((unrefs [] : Nat) : Int) }
        : GstVideoFrame) = f := by
      cases f
      simp only [GstVideoFrame.mk.injEq, and_true] at h1 ⊢
      simp [refs, unrefs, h1]
    rw [hfe, store_self s.mem frame f hf]
    rfl
  | append_singleton init op ih =>
    have hinit := never_below_zero_initial init [op] hops
    have hwi := never_below_zero_whole init hinit
    have hw := never_below_zero_whole _ hops
    rw [refs_append, unrefs_append] at hw
    have hmax2 : ((refs init : Nat) : Int) + ((refs [op] : Nat) : Int) < G_MAXINT := by
      rw [refs_append] at hmax
      push_cast at hmax
      exact hmax
    have hmaxi : ((refs init : Nat) : Int) < G_MAXINT := by omega
    obtain ⟨ih1, ih2⟩ := ih hinit hmaxi
    rw [run_ops_concat, refs_append, unrefs_append]
    by_cases hlive : live_at_each_call init
    · have hrun := ih1 hlive
      rw [hrun]
      simp only [Option.some_bind]
      by_cases hz : 1 + ((refs init : Nat) : Int) - ((unrefs init : Nat) : Int) = 0
      · -- the frame was released by the last call of init
        rw [if_pos hz]
        have hnl : ¬ live_at_each_call (init ++ [op]) := by
          intro hl
          have := live_at_each_call_last init op hl
          omega
        refine ⟨fun hl => absurd hl hnl, fun _ => ?_⟩
        exact apply_op_released frame _ op hp (release_same _ _)
      · rw [if_neg hz]
        have hl : live_at_each_call (init ++ [op]) :=
          live_at_each_call_concat init op hlive (by omega)
        refine ⟨fun _ => ?_, fun hn => absurd hl hn⟩
        cases op with
        | ref =>
          have hr1 : refs [RefOp.ref] = 1 := by decide
          have hu1 : unrefs [RefOp.ref] = 0 := by decide
          rw [hr1] at hmax2
          rw [hr1, hu1]
          have hne : ¬ (1 + ((refs init + 1 : Nat) : Int) - ((unrefs init + 0 : Nat) : Int) = 0) := by
            push_cast; omega
          rw [if_neg hne]
          simp only [apply_op]
          rw [ref_allocated frame _ _ hp (store_same _ _ _)]
          simp only [Option.map_some', store_store]
          have hg : to_gint (1 + ((refs init : Nat) : Int) - ((unrefs init : Nat) : Int) + 1)
              = 1 + ((refs init + 1 : Nat) : Int) - ((unrefs init + 0 : Nat) : Int) := by
            rw [to_gint_of_gint]
            · push_cast; omega
            · unfold G_MININT; omega
            · unfold G_MAXINT at hmax2 ⊢; push_cast at hmax2; omega
          simp only [hg]
        | unref =>
          have hr1 : refs [RefOp.unref] = 0 := by decide
          have hu1 : unrefs [RefOp.unref] = 1 := by decide
          rw [hr1, hu1]
          simp only [apply_op]
          by_cases hone : 1 + ((refs init : Nat) : Int) - ((unrefs init : Nat) : Int) = 1
          · have hzero : 1 + ((refs init + 0 : Nat) : Int) - ((unrefs init + 1 : Nat) : Int) = 0 := by
              push_cast; omega
            rw [if_pos hzero]
            rw [unref_last frame _ _ hp (store_same _ _ _) hone]
            simp only [release_store, free_effects_ref_count]
          · have hnz : ¬ (1 + ((refs init + 0 : Nat) : Int) - ((unrefs init + 1 : Nat) : Int) = 0) := by
              push_cast; omega
            rw [if_neg hnz]
            rw [unref_shared frame _ _ hp (store_same _ _ _) (by simp only; omega)]
            simp only [store_store]
            have hg : 1 + ((refs init : Nat) : Int) - ((unrefs init : Nat) : Int) - 1
                = 1 + ((refs init + 0 : Nat) : Int) - ((unrefs init + 1 : Nat) : Int) := by
              push_cast; omega
            simp only [hg]
    · have hrun := ih2 hlive
      rw [hrun]
      refine ⟨fun hl => absurd (live_at_each_call_initial init [op] hl) hlive, fun _ => rfl⟩

theorem to_gint_add_succ (c : Int) (n : Nat) :
    to_gint (to_gint (c + 1) + (n : Int)) = to_gint (c + ((n + 1 : Nat) : Int)) := by
  unfold to_gint
  omega

/-- The state `n` calls of `gst_video_frame_ref` leave: the count has gone up `n`
times as a `gint` does. -/
theorem run_ops_replicate_ref (frame : Ptr) (n : Nat) (s : State) (f : GstVideoFrame)
    (hp : frame ≠ NULL) (hf : s.mem frame = some f) (hc : to_gint f.ref_count = f.ref_count) :
    run_ops frame (List.replicate n RefOp.ref) s =
      some { codec := s.codec,
             mem := s.mem.store frame { f with ref_count := to_gint (f.ref_count + (n : Int)) },
             log := s.log } := by
  induction n generalizing s f with
  | zero =>
    have hfe : ({ f with ref_count := to_gint (f.ref_count + ((0 : Nat) : Int)) } : GstVideoFrame)
        = f := by
      cases f
      simp only [GstVideoFrame.mk.injEq, and_true] at hc ⊢
      simpa using hc
    rw [hfe, store_self s.mem frame f hf]
    rfl
  | succ n ih =>
    rw [List.replicate_succ]
    simp only [run_ops, apply_op]
    rw [ref_allocated frame s f hp hf]
    simp only [Option.map_some', Option.some_bind]
    rw [ih _ { f with ref_count := to_gint (f.ref_count + 1) } (store_same _ _ _)
      (to_gint_idem _)]
    simp only [store_store, to_gint_add_succ]

theorem never_below_zero_refs_then_unref (n : Nat) :
    never_below_zero (List.replicate n RefOp.ref ++ [RefOp.unref]) := by
  intro k _
  have h1 : unrefs ((List.replicate n RefOp.ref ++ [RefOp.unref]).take k)
      ≤ unrefs (List.replicate n RefOp.ref ++ [RefOp.unref]) :=
    (List.take_sublist k _).count_le RefOp.unref
  have h2 : unrefs (List.replicate n RefOp.ref ++ [RefOp.unref]) = 1 := by
    simp [unrefs, List.count_append, List.count_replicate]
  omega

/-! ## Main results -/

/-- C1, as the code has it: on a frame that starts with the reference count 1, under a
sequence of ref and unref calls in which no prefix has more unrefs than refs plus one
and that makes fewer than `G_MAXINT` refs: while no call is made after the unref that
took the count to zero, the sequence leaves the count `1 + refs - unrefs` and
nothing else changed, and the frame is destroyed (its resources released, the block
freed) once if that count is 0 and not at all otherwise; an unref made at the count 1
destroys the frame, an unref made at a higher count only lowers the count by one, a
ref only raises it by one; and a sequence with a call after the unref that took the
count to zero has no defined result. -/
theorem frame_destroyed_when_count_reaches_zero (frame : Ptr) (s : State) (f : GstVideoFrame)
    (ops : List RefOp) (hp : frame ≠ NULL) (hf : s.mem frame = some f)
    (h1 : f.ref_count = 1) (hops : never_below_zero ops)
    (hmax : (refs ops : Int) < G_MAXINT) :
    (live_at_each_call ops →
      run_ops frame ops s = some
        (if 1 + (refs ops : Int) - (unrefs ops : Int) = 0 then
           { codec := s.codec, mem := s.mem.release frame,
             log := s.log ++ free_effects frame f }
         else
           { codec := s.codec,
             mem := s.mem.store frame
               { f with ref_count := 1 + (refs ops : Int) - (unrefs ops : Int) },
             log := s.log })) ∧
    (live_at_each_call ops →
      ∃ s', run_ops frame ops s = some s' ∧
        destroyed frame s' = destroyed frame s +
          (if 1 + (refs ops : Int) - (unrefs ops : Int) = 0 then 1 else 0)) ∧
    (¬ live_at_each_call ops → run_ops frame ops s = none) ∧
    (∀ pre post, ops = pre ++ RefOp.unref :: post → live_at_each_call (pre ++ [RefOp.unref]) →
      ∃ s1 f1, run_ops frame pre s = some s1 ∧ s1.mem frame = some f1 ∧
        f1.ref_count = 1 + (refs pre : Int) - (unrefs pre : Int) ∧ 1 ≤ f1.ref_count ∧
        (f1.ref_count = 1 →
          gst_video_frame_unref frame s1 =
            some { codec := s1.codec, mem := s1.mem.release frame,
                   log := s1.log ++ free_effects frame f1 }) ∧
        (1 < f1.ref_count →
          gst_video_frame_unref frame s1 =
            some { codec := s1.codec,
                   mem := s1.mem.store frame { f1 with ref_count := f1.ref_count - 1 },
                   log := s1.log })) ∧
    (∀ pre post, ops = pre ++ RefOp.ref :: post → live_at_each_call (pre ++ [RefOp.ref]) →
      ∃ s1 f1, run_ops frame pre s = some s1 ∧ s1.mem frame = some f1 ∧
        f1.ref_count = 1 + (refs pre : Int) - (unrefs pre : Int) ∧
        gst_video_frame_ref frame s1 =
          some (frame,
            { codec := s1.codec,
              mem := s1.mem.store frame { f1 with ref_count := f1.ref_count + 1 },
              log := s1.log })) := by
  have hres := run_ops_result frame s f ops hp hf h1 hops hmax
  -- what holds before a call made on a live frame
  have hbefore : ∀ (pre post : List RefOp) (op : RefOp), ops = pre ++ op :: post →
      live_at_each_call (pre ++ [op]) →
      ∃ s1 f1, run_ops frame pre s = some s1 ∧ s1.mem frame = some f1 ∧
        f1.ref_count = 1 + (refs pre : Int) - (unrefs pre : Int) ∧ 1 ≤ f1.ref_count ∧
        f1.ref_count + (refs [op] : Int) ≤ G_MAXINT := by
    intro pre post op hsplit hl
    have hpre : never_below_zero pre := by
      apply never_below_zero_initial pre (op :: post)
      rw [← hsplit]; exact hops
    have hrefs : refs pre + refs [op] ≤ refs ops := by
      have e : pre ++ op :: post = pre ++ ([op] ++ post) := rfl
      rw [hsplit, e, refs_append, refs_append]; omega
    have hmaxp : ((refs pre : Nat) : Int) < G_MAXINT := by omega
    have hlast := live_at_each_call_last pre op hl
    have hwp := never_below_zero_whole pre hpre
    have hr := (run_ops_result frame s f pre hp hf h1 hpre hmaxp).1
      (live_at_each_call_initial pre [op] hl)
    have hne : ¬ (1 + ((refs pre : Nat) : Int) - ((unrefs pre : Nat) : Int) = 0) := by omega
    rw [if_neg hne] at hr
    refine ⟨_, _, hr, store_same _ _ _, rfl, ?_, ?_⟩
    · show 1 ≤ 1 + ((refs pre : Nat) : Int) - ((unrefs pre : Nat) : Int)
      omega
    · show 1 + ((refs pre : Nat) : Int) - ((unrefs pre : Nat) : Int) + ((refs [op] : Nat) : Int)
        ≤ G_MAXINT
      omega
  refine ⟨hres.1, ?_, hres.2, ?_, ?_⟩
  · intro hl
    refine ⟨_, hres.1 hl, ?_⟩
    by_cases hz : 1 + (refs ops : Int) - (unrefs ops : Int) = 0
    · rw [if_pos hz, if_pos hz, destroyed_append, if_pos rfl]
      rfl
    · rw [if_neg hz, if_neg hz]
      rfl
  · intro pre post hsplit hl
    obtain ⟨s1, f1, hrun, hm, hc, hpos, _⟩ := hbefore pre post RefOp.unref hsplit hl
    exact ⟨s1, f1, hrun, hm, hc, hpos,
      fun hone => unref_last frame s1 f1 hp hm hone,
      fun hgt => unref_shared frame s1 f1 hp hm hgt⟩
  · intro pre post hsplit hl
    obtain ⟨s1, f1, hrun, hm, hc, hpos, hle⟩ := hbefore pre post RefOp.ref hsplit hl
    refine ⟨s1, f1, hrun, hm, hc, ?_⟩
    have hr1 : refs [RefOp.ref] = 1 := by decide
    rw [hr1] at hle
    rw [ref_allocated frame s1 f1 hp hm, to_gint_of_gint]
    · unfold G_MININT; omega
    · exact hle

/-- C1, witness: ref, unref, unref on the first frame of a new element destroys the
frame once. -/
theorem frame_destroyed_when_count_reaches_zero_witness :
    ∃ s', run_ops 5 [RefOp.ref, RefOp.unref, RefOp.unref] first_frame_state = some s' ∧
      destroyed 5 s' = destroyed 5 first_frame_state +
        (if 1 + (refs [RefOp.ref, RefOp.unref, RefOp.unref] : Int)
              - (unrefs [RefOp.ref, RefOp.unref, RefOp.unref] : Int) = 0 then 1 else 0) :=
  (frame_destroyed_when_count_reaches_zero 5 first_frame_state first_frame
      [RefOp.ref, RefOp.unref, RefOp.unref] (by decide) rfl rfl (by decide) (by decide)).2.1
    (by decide)

/-- C1, as stated, fails on the first frame of a new element, whose count is 1. The
sequence made of one ref has no prefix with more unrefs than refs plus one, and the
frame is not destroyed once over it but not at all. The sequence unref, ref has no
such prefix either, and its ref is made on the block the unref freed: the sequence
has no defined result. And after `G_MAXINT` refs the count is `G_MININT`, where an
unref returns without lowering it. -/
theorem frame_never_destroyed_counterexample :
    first_frame_state.mem 5 = some first_frame ∧ first_frame.ref_count = 1 ∧
    (never_below_zero [RefOp.ref] ∧
      (run_ops 5 [RefOp.ref] first_frame_state).map (destroyed 5) = some 0) ∧
    (never_below_zero [RefOp.unref, RefOp.ref] ∧
      run_ops 5 [RefOp.unref, RefOp.ref] first_frame_state = none) ∧
    (never_below_zero (List.replicate 2147483647 RefOp.ref ++ [RefOp.unref]) ∧
      ∃ s1 f1, run_ops 5 (List.replicate 2147483647 RefOp.ref) first_frame_state = some s1 ∧
        s1.mem 5 = some f1 ∧ f1.ref_count = G_MININT ∧
        gst_video_frame_unref 5 s1 = some s1) := by
  refine ⟨rfl, rfl, ⟨by decide, by decide⟩, ⟨by decide, rfl⟩,
    never_below_zero_refs_then_unref 2147483647, ?_⟩
  have hrun := run_ops_replicate_ref 5 2147483647 first_frame_state first_frame
    (by decide) rfl (by decide)
  have hm : ∀ (c : GstBaseVideoCodec) (m : Mem) (g : GstVideoFrame) (l : List Effect),
      (State.mk c (m.store 5 g) l).mem 5 = some g := fun _ m g _ => store_same m 5 g
  refine ⟨_, _, hrun, hm _ _ _ _, by decide, ?_⟩
  exact unref_nonpos 5 _ _ (hm _ _ _ _) (by decide)

/-- C2, as the code has it: `gst_base_video_codec_new_frame` returns the block it
allocated, holding a frame with the reference count 1, every other member empty and,
as sequence number, the element's counter before the call as a `gint` holds it, which
is the counter itself while that is at most `G_MAXINT`; in the element the counter is
one higher modulo `2^64`, one higher when it was below `G_MAXUINT64`, and nothing else
changes (frame list, byte and time counters, negotiated state); no other block
changes and no call leaves the file; and when every entry of the frame list is an
allocated frame, the new frame, whose block was not allocated, is not in the list. -/
theorem new_frame_creates_blank_frame (block : Ptr) (s : State) :
    (gst_base_video_codec_new_frame block s).1 = block ∧
    (gst_base_video_codec_new_frame block s).2.mem block =
      some { ref_count := 1,
             system_frame_number := to_gint (s.codec.system_frame_number : Int),
             sink_buffer := NULL, src_buffer := NULL, events := [],
             coder_hook := NULL, coder_hook_destroy_notify := NULL } ∧
    (s.codec.system_frame_number ≤ 2147483647 →
      (gst_base_video_codec_new_frame block s).2.mem block =
        some { ref_count := 1,
               system_frame_number := (s.codec.system_frame_number : Int),
               sink_buffer := NULL, src_buffer := NULL, events := [],
               coder_hook := NULL, coder_hook_destroy_notify := NULL }) ∧
    (gst_base_video_codec_new_frame block s).2.codec
      = { s.codec with system_frame_number := to_guint64 (s.codec.system_frame_number + 1) } ∧
    (s.codec.system_frame_number < G_MAXUINT64 →
      (gst_base_video_codec_new_frame block s).2.codec
        = { s.codec with system_frame_number := s.codec.system_frame_number + 1 }) ∧
    (gst_base_video_codec_new_frame block s).2.codec.frames = s.codec.frames ∧
    (gst_base_video_codec_new_frame block s).2.codec.bytes = s.codec.bytes ∧
    (gst_base_video_codec_new_frame block s).2.codec.time = s.codec.time ∧
    (gst_base_video_codec_new_frame block s).2.codec.state = s.codec.state ∧
    (gst_base_video_codec_new_frame block s).2.log = s.log ∧
    (∀ q, q ≠ block → (gst_base_video_codec_new_frame block s).2.mem q = s.mem q) ∧
    (s.mem block = none → (∀ q, q ∈ s.codec.frames → s.mem q ≠ none) →
      (gst_base_video_codec_new_frame block s).1
        ∉ (gst_base_video_codec_new_frame block s).2.codec.frames) := by
  have hf : (gst_base_video_codec_new_frame block s).2.mem block =
      some { ref_count := 1,
             system_frame_number := to_gint (s.codec.system_frame_number : Int),
             sink_buffer := NULL, src_buffer := NULL, events := [],
             coder_hook := NULL, coder_hook_destroy_notify := NULL } :=
    new_frame_frame block s
  refine ⟨rfl, hf, ?_, new_frame_codec block s, ?_, rfl, rfl, rfl, rfl, rfl,
    fun q hq => new_frame_mem_other block q s hq, ?_⟩
  · intro hle
    rw [hf, to_gint_natCast _ (by omega)]
  · intro hlt
    unfold G_MAXUINT64 at hlt
    rw [new_frame_codec, to_guint64_of_lt _ (by omega)]
  · intro hfresh hlive hin
    exact hlive block hin hfresh

/-- C2, witness: a frame created at the address 9, where nothing is allocated, in an
element whose live frames 5 and 6 are allocated. -/
theorem new_frame_creates_blank_frame_witness :
    example_state.mem 9 = none ∧
    (∀ q, q ∈ example_state.codec.frames → example_state.mem q ≠ none) ∧
    (gst_base_video_codec_new_frame 9 example_state).1
      ∉ (gst_base_video_codec_new_frame 9 example_state).2.codec.frames :=
  have hlive : ∀ q, q ∈ example_state.codec.frames → example_state.mem q ≠ none := by
    intro q hq
    have h56 : q = 5 ∨ q = 6 := by simpa [example_state] using hq
    rcases h56 with e | e <;> subst e <;> decide
  ⟨rfl, hlive, (new_frame_creates_blank_frame 9 example_state).2.2.2.2.2.2.2.2.2.2.2 rfl hlive⟩

/-- C2, as stated, fails. On an element whose counter is `G_MAXUINT64` the new frame's
sequence number is -1, not the counter, and the counter is 0 after the call, not one
higher. And on an element whose frame list still holds the address of a destroyed
frame, a frame created in that block is in the list. -/
theorem new_frame_at_last_number_counterexample :
    (∃ f, (gst_base_video_codec_new_frame 5 last_number_state).2.mem 5 = some f ∧
      f.system_frame_number = -1 ∧
      f.system_frame_number ≠ (last_number_state.codec.system_frame_number : Int)) ∧
    (gst_base_video_codec_new_frame 5 last_number_state).2.codec.system_frame_number = 0 ∧
    (gst_base_video_codec_new_frame 5 last_number_state).2.codec.system_frame_number
      ≠ last_number_state.codec.system_frame_number + 1 ∧
    dangling_state.mem 5 = none ∧
    (gst_base_video_codec_new_frame 5 dangling_state).1
      ∈ (gst_base_video_codec_new_frame 5 dangling_state).2.codec.frames := by
  refine ⟨⟨_, new_frame_frame 5 last_number_state, by decide, by decide⟩, by decide, by decide,
    rfl, by decide⟩

/-- C3, as the code has it: calls of `gst_base_video_codec_new_frame` made one after
another return one frame each, whose sequence numbers are the consecutive values from
the counter's value before the first call on as a `gint` holds them; when these
values are at most `G_MAXINT` the sequence numbers are these values themselves:
consecutive, strictly increasing in call order and pairwise distinct; and the counter
ends that many higher when that is at most `G_MAXUINT64`. -/
theorem new_frames_consecutive_numbers (blocks : List Ptr) (s : State) :
    (new_frames blocks s).1 =
      (List.range' s.codec.system_frame_number blocks.length).map
        (fun m : Nat => to_gint (m : Int)) ∧
    (new_frames blocks s).1.length = blocks.length ∧
    (s.codec.system_frame_number + blocks.length ≤ 2147483648 →
      (new_frames blocks s).1 =
        (List.range' s.codec.system_frame_number blocks.length).map (fun m : Nat => (m : Int)) ∧
      List.Pairwise (fun a b => a < b) (new_frames blocks s).1 ∧
      (new_frames blocks s).1.Nodup ∧
      (∀ i, i < blocks.length →
        (new_frames blocks s).1.get? i = some ((s.codec.system_frame_number + i : Nat) : Int))) ∧
    (s.codec.system_frame_number + blocks.length ≤ G_MAXUINT64 →
      (new_frames blocks s).2.codec.system_frame_number
        = s.codec.system_frame_number + blocks.length) := by
  have h := new_frames_numbers blocks s
  refine ⟨h, ?_, ?_, ?_⟩
  · rw [h]; simp
  · intro hle
    have h2 := h.trans (map_to_gint_range_small _ _ hle)
    refine ⟨h2, ?_, ?_, ?_⟩
    · rw [h2]; exact pairwise_lt_map_range _ _
    · rw [h2]; exact nodup_map_range _ _
    · intro i hi
      rw [h2]
      simp [List.getElem?_range', hi]
  · intro hle
    unfold G_MAXUINT64 at hle
    exact new_frames_counter blocks s (by omega)

/-- C3, witness: three frames created on an element whose counter is 8. -/
theorem new_frames_consecutive_numbers_witness :
    example_state.codec.system_frame_number + [11, 12, 13].length ≤ 2147483648 ∧
    (new_frames [11, 12, 13] example_state).1 =
      (List.range' example_state.codec.system_frame_number [11, 12, 13].length).map
        (fun m : Nat => (m : Int)) :=
  ⟨by decide, ((new_frames_consecutive_numbers [11, 12, 13] example_state).2.2.1 (by decide)).1⟩

/-- C3, as stated, fails: on an element whose counter is `G_MAXINT`, two calls return
the sequence numbers `G_MAXINT` and `G_MININT`, which are not increasing. -/
theorem new_frames_wrap_counterexample :
    (new_frames [7, 8] last_gint_number_state).1 = [2147483647, -2147483648] ∧
    ¬ List.Pairwise (fun a b => a < b) (new_frames [7, 8] last_gint_number_state).1 := by
  decide

/-- C4: `gst_base_video_codec_reset` calls `gst_video_frame_unref` once for each entry
of the live frame list, in list order, and leaves the list empty; it returns exactly
when every entry can take its call (it is null or an allocated frame that the list
does not hold more often than its positive count). A frame with a positive count
loses one reference for each of its entries in the list and is destroyed when that
takes the count to zero, no other member of any frame changes and a frame that is
not in the list is as before; the byte and time counters are zero; the codec data
buffer, then the caps, lose one reference when held; the negotiated state is all-zero
with the format `GST_VIDEO_FORMAT_UNKNOWN`; the rest of the element is as before. -/
theorem reset_releases_frames_and_clears_state (s : State) :
    gst_base_video_codec_reset s =
      (unref_frames s.codec.frames s).map (fun s2 =>
        { codec :=
            { s.codec with
              frames := [], bytes := 0, time := 0,
              state := { format := GST_VIDEO_FORMAT_UNKNOWN, caps := NULL, codec_data := NULL,
                         other := List.replicate s.codec.state.other.length 0 } },
          mem := s2.mem,
          log := s2.log ++
            (if s.codec.state.codec_data ≠ NULL then
               [Effect.gst_buffer_unref s.codec.state.codec_data] else []) ++
            (if s.codec.state.caps ≠ NULL then
               [Effect.gst_caps_unref s.codec.state.caps] else []) }) ∧
    ((∃ s', gst_base_video_codec_reset s = some s') ↔ can_unref_all s.codec.frames s) ∧
    (∀ s', gst_base_video_codec_reset s = some s' →
      s'.codec =
        { s.codec with
          frames := [], bytes := 0, time := 0,
          state := { format := GST_VIDEO_FORMAT_UNKNOWN, caps := NULL, codec_data := NULL,
                     other := List.replicate s.codec.state.other.length 0 } } ∧
      s'.codec.frames = [] ∧
      s'.codec.bytes = 0 ∧
      s'.codec.time = 0 ∧
      s'.codec.state.format = GST_VIDEO_FORMAT_UNKNOWN ∧
      s'.codec.state.caps = NULL ∧
      s'.codec.state.codec_data = NULL ∧
      (∀ w, w ∈ s'.codec.state.other → w = 0) ∧
      (∃ s2, unref_frames s.codec.frames s = some s2 ∧ s'.mem = s2.mem ∧
        s'.log = s2.log ++
          (if s.codec.state.codec_data ≠ NULL then
             [Effect.gst_buffer_unref s.codec.state.codec_data] else []) ++
          (if s.codec.state.caps ≠ NULL then
             [Effect.gst_caps_unref s.codec.state.caps] else [])) ∧
      (∀ q, q ≠ NULL →
        s'.mem q = (s.mem q).bind fun f =>
          if 0 < f.ref_count ∧ f.ref_count ≤ (s.codec.frames.count q : Int) then none
          else some { f with ref_count :=
                 if f.ref_count ≤ 0 then f.ref_count
                 else f.ref_count - (s.codec.frames.count q : Int) }) ∧
      s'.mem NULL = s.mem NULL ∧
      (∀ q, q ∉ s.codec.frames → s'.mem q = s.mem q) ∧
      (∀ q, destroyed q s' = destroyed q s +
        (s.mem q).elim 0 (fun f =>
          if q ≠ NULL ∧ 0 < f.ref_count ∧ f.ref_count ≤ (s.codec.frames.count q : Int)
          then 1 else 0)) ∧
      caps_unrefs s'.log =
        caps_unrefs s.log ++
          (if s.codec.state.caps ≠ NULL then [s.codec.state.caps] else [])) := by
  refine ⟨reset_eq s, ?_, ?_⟩
  · rw [← unref_frames_defined_iff, reset_eq]
    constructor
    · rintro ⟨s', h⟩
      cases hu : unref_frames s.codec.frames s with
      | none => rw [hu] at h; exact absurd h (by simp)
      | some s2 => exact ⟨s2, rfl⟩
    · rintro ⟨s2, h2⟩
      rw [h2]
      exact ⟨_, rfl⟩
  · intro s' h
    have hc := reset_codec s s' h
    rw [reset_eq] at h
    cases hu : unref_frames s.codec.frames s with
    | none => rw [hu] at h; exact absurd h (by simp)
    | some s2 =>
      rw [hu] at h
      simp only [Option.map_some', Option.some.injEq] at h
      have hm : s'.mem = s2.mem := by rw [← h]
      have hl : s'.log = s2.log ++
          (if s.codec.state.codec_data ≠ NULL then
             [Effect.gst_buffer_unref s.codec.state.codec_data] else []) ++
          (if s.codec.state.caps ≠ NULL then
             [Effect.gst_caps_unref s.codec.state.caps] else []) := by rw [← h]
      refine ⟨hc, ?_, ?_, ?_, ?_, ?_, ?_, ?_, ⟨s2, rfl, hm, hl⟩, ?_, ?_, ?_, ?_, ?_⟩
      · rw [hc]
      · rw [hc]
      · rw [hc]
      · rw [hc]
      · rw [hc]
      · rw [hc]
      · rw [hc]
        intro w hw
        exact (List.mem_replicate.mp hw).2
      · intro q hq
        rw [hm]
        exact unref_frames_mem s.codec.frames q s s2 hu hq
      · rw [hm]
        exact unref_frames_mem_null s.codec.frames s s2 hu
      · intro q hq
        rw [hm]
        exact unref_frames_mem_not_mem s.codec.frames q s s2 hu hq
      · intro q
        have hd : destroyed q s' = destroyed q s2 := by
          unfold destroyed
          rw [hl, slice_frees_append, slice_frees_append]
          by_cases h1 : s.codec.state.codec_data = NULL <;>
            by_cases h2 : s.codec.state.caps = NULL <;>
            simp [h1, h2, slice_frees]
        rw [hd]
        exact unref_frames_destroyed s.codec.frames q s s2 hu
      · rw [hl, caps_unrefs_append, caps_unrefs_append,
          unref_frames_caps_unrefs s.codec.frames s s2 hu]
        by_cases h1 : s.codec.state.codec_data = NULL <;>
          by_cases h2 : s.codec.state.caps = NULL <;>
          simp [h1, h2, caps_unrefs]

/-- C4, witness: the reset of an element with the live frames 5 (count 1) and 6
(count 2) returns. -/
theorem reset_releases_frames_and_clears_state_witness :
    can_unref_all example_state.codec.frames example_state ∧
    ∃ s', gst_base_video_codec_reset example_state = some s' :=
  have hcan : can_unref_all example_state.codec.frames example_state := by
    intro q hq
    have h56 : q = 5 ∨ q = 6 := by simpa [example_state] using hq
    rcases h56 with e | e
    · subst e; exact Or.inr ⟨example_frame, rfl, Or.inr (by decide)⟩
    · subst e; exact Or.inr ⟨shared_frame, rfl, Or.inr (by decide)⟩
  ⟨hcan, (reset_releases_frames_and_clears_state example_state).2.1.mpr hcan⟩

/-- C5: `gst_base_video_codec_reset` is idempotent: a second reset right after a first
returns and leaves the element, the frames and the calls made as the first left them,
so the second releases nothing; and on an element as `gst_base_video_codec_init`
leaves it a reset returns, changes nothing and releases nothing, whatever the frame
memory holds. -/
theorem reset_twice_is_reset_once :
    (∀ s s' : State, gst_base_video_codec_reset s = some s' →
      gst_base_video_codec_reset s' = some s') ∧
    (∀ s : State,
      (gst_base_video_codec_reset s).bind gst_base_video_codec_reset
        = gst_base_video_codec_reset s) ∧
    (∀ (sinkpad srcpad : Ptr) (other_words : Nat) (mem : Mem) (log : List Effect),
      gst_base_video_codec_reset
          { codec := gst_base_video_codec_init sinkpad srcpad other_words, mem := mem, log := log }
        = some { codec := gst_base_video_codec_init sinkpad srcpad other_words,
                 mem := mem, log := log }) ∧
    (∀ (sinkpad srcpad : Ptr) (other_words : Nat),
      ∃ s', gst_base_video_codec_reset (initial_state sinkpad srcpad other_words) = some s' ∧
        s' = initial_state sinkpad srcpad other_words ∧
        s'.codec.bytes = 0 ∧ s'.codec.time = 0 ∧
        s'.codec.state.format = GST_VIDEO_FORMAT_UNKNOWN ∧ s'.log = []) := by
  have hfix : ∀ s s' : State, gst_base_video_codec_reset s = some s' →
      gst_base_video_codec_reset s' = some s' := by
    intro s s' h
    have hc := reset_codec s s' h
    rw [reset_eq]
    have hfr : s'.codec.frames = [] := by rw [hc]
    rw [hfr]
    simp only [unref_frames, Option.map_some', Option.some.injEq]
    cases s' with
    | mk codec mem log =>
      simp only at hc
      subst hc
      simp [NULL, GST_VIDEO_FORMAT_UNKNOWN]
  have hinit : ∀ (sinkpad srcpad : Ptr) (other_words : Nat) (mem : Mem) (log : List Effect),
      gst_base_video_codec_reset
          { codec := gst_base_video_codec_init sinkpad srcpad other_words, mem := mem, log := log }
        = some { codec := gst_base_video_codec_init sinkpad srcpad other_words,
                 mem := mem, log := log } := by
    intro sinkpad srcpad n mem log
    rw [reset_eq]
    simp [gst_base_video_codec_init, unref_frames, NULL, GST_VIDEO_FORMAT_UNKNOWN]
  refine ⟨hfix, ?_, hinit, ?_⟩
  · intro s
    cases h : gst_base_video_codec_reset s with
    | none => rfl
    | some s' => simp only [Option.some_bind]; exact hfix s s' h
  · intro sinkpad srcpad n
    exact ⟨_, hinit sinkpad srcpad n (fun _ => none) [], rfl, rfl, rfl, rfl, rfl⟩

/-- C6: `gst_base_video_codec_change_state` calls the parent handler once, with the
transition it was given, and returns the parent's result; on READY to PAUSED it
calls reset once, before the parent handler, which runs on the reset state; on
PAUSED to READY it calls reset once, after the parent handler, on the state the
parent left; on every other transition it calls the parent handler only. It returns
whenever its reset does. -/
theorem change_state_resets_around_parent (parent : ParentChangeState) (s : State)
    (transition : GstStateChange) :
    (transition = GST_STATE_CHANGE_READY_TO_PAUSED →
      gst_base_video_codec_change_state parent s transition
        = (gst_base_video_codec_reset s).map (fun s1 =>
            ((parent s1 transition).1, (parent s1 transition).2,
             [Call.reset, Call.parent_change_state transition]))) ∧
    (transition = GST_STATE_CHANGE_PAUSED_TO_READY →
      gst_base_video_codec_change_state parent s transition
        = (gst_base_video_codec_reset (parent s transition).1).map (fun s3 =>
            (s3, (parent s transition).2,
             [Call.parent_change_state transition, Call.reset]))) ∧
    (transition ≠ GST_STATE_CHANGE_READY_TO_PAUSED →
     transition ≠ GST_STATE_CHANGE_PAUSED_TO_READY →
      gst_base_video_codec_change_state parent s transition
        = some ((parent s transition).1, (parent s transition).2,
                [Call.parent_change_state transition])) ∧
    (∀ r, gst_base_video_codec_change_state parent s transition = some r →
      r.2.2.count (Call.parent_change_state transition) = 1 ∧
      (∀ t, t ≠ transition → r.2.2.count (Call.parent_change_state t) = 0) ∧
      r.2.2.count Call.reset
        = (if transition = GST_STATE_CHANGE_READY_TO_PAUSED
              ∨ transition = GST_STATE_CHANGE_PAUSED_TO_READY then 1 else 0)) := by
  by_cases h1 : transition = GST_STATE_CHANGE_READY_TO_PAUSED
  · subst h1
    have heq : gst_base_video_codec_change_state parent s GST_STATE_CHANGE_READY_TO_PAUSED
        = (gst_base_video_codec_reset s).map (fun s1 =>
            ((parent s1 GST_STATE_CHANGE_READY_TO_PAUSED).1,
             (parent s1 GST_STATE_CHANGE_READY_TO_PAUSED).2,
             [Call.reset, Call.parent_change_state GST_STATE_CHANGE_READY_TO_PAUSED])) := by
      cases hr : gst_base_video_codec_reset s with
      | none =>
        simp [gst_base_video_codec_change_state, hr, GST_STATE_CHANGE_READY_TO_PAUSED,
          GST_STATE_CHANGE_NULL_TO_READY]
      | some s1 =>
        simp [gst_base_video_codec_change_state, hr, GST_STATE_CHANGE_READY_TO_PAUSED,
          GST_STATE_CHANGE_NULL_TO_READY, GST_STATE_CHANGE_PLAYING_TO_PAUSED,
          GST_STATE_CHANGE_PAUSED_TO_READY, GST_STATE_CHANGE_READY_TO_NULL]
    refine ⟨fun _ => heq, fun h => absurd h (by decide), fun h => absurd rfl h, ?_⟩
    intro r hr
    rw [heq] at hr
    obtain ⟨s1, _, hs1⟩ := Option.map_eq_some'.mp hr
    rw [← hs1]
    refine ⟨?_, ?_, ?_⟩
    · simp
    · intro t ht
      have ht2 : ¬ (GST_STATE_CHANGE_READY_TO_PAUSED = t) := fun e => ht e.symm
      simp [List.count_cons, ht2]
    · simp
  · by_cases h2 : transition = GST_STATE_CHANGE_PAUSED_TO_READY
    · subst h2
      have heq : gst_base_video_codec_change_state parent s GST_STATE_CHANGE_PAUSED_TO_READY
          = (gst_base_video_codec_reset (parent s GST_STATE_CHANGE_PAUSED_TO_READY).1).map
              (fun s3 =>
                (s3, (parent s GST_STATE_CHANGE_PAUSED_TO_READY).2,
                 [Call.parent_change_state GST_STATE_CHANGE_PAUSED_TO_READY, Call.reset])) := by
        cases hr : gst_base_video_codec_reset (parent s GST_STATE_CHANGE_PAUSED_TO_READY).1 with
        | none =>
          simp [gst_base_video_codec_change_state, GST_STATE_CHANGE_READY_TO_PAUSED,
            GST_STATE_CHANGE_NULL_TO_READY, GST_STATE_CHANGE_PLAYING_TO_PAUSED,
            GST_STATE_CHANGE_PAUSED_TO_READY, GST_STATE_CHANGE_READY_TO_NULL,
            GST_STATE_CHANGE_PAUSED_TO_PLAYING] at hr ⊢
          simp [hr]
        | some s3 =>
          simp [gst_base_video_codec_change_state, GST_STATE_CHANGE_READY_TO_PAUSED,
            GST_STATE_CHANGE_NULL_TO_READY, GST_STATE_CHANGE_PLAYING_TO_PAUSED,
            GST_STATE_CHANGE_PAUSED_TO_READY, GST_STATE_CHANGE_READY_TO_NULL,
            GST_STATE_CHANGE_PAUSED_TO_PLAYING] at hr ⊢
          simp [hr]
      refine ⟨fun h => absurd h (by decide), fun _ => heq, fun _ h => absurd rfl h, ?_⟩
      intro r hr
      rw [heq] at hr
      obtain ⟨s3, _, hs3⟩ := Option.map_eq_some'.mp hr
      rw [← hs3]
      refine ⟨?_, ?_, ?_⟩
      · simp
      · intro t ht
        have ht2 : ¬ (GST_STATE_CHANGE_PAUSED_TO_READY = t) := fun e => ht e.symm
        simp [List.count_cons, ht2]
      · simp
    · have heq : gst_base_video_codec_change_state parent s transition
          = some ((parent s transition).1, (parent s transition).2,
                  [Call.parent_change_state transition]) := by
        simp [gst_base_video_codec_change_state, h1, h2]
      refine ⟨fun h => absurd h h1, fun h => absurd h h2, fun _ _ => heq, ?_⟩
      intro r hr
      rw [heq] at hr
      rw [← Option.some.inj hr]
      refine ⟨?_, ?_, ?_⟩
      · simp
      · intro t ht
        have ht2 : ¬ (transition = t) := fun e => ht e.symm
        simp [List.count_cons, ht2]
      · simp [h1, h2]

/-- C6, witness: READY to PAUSED on an element with live frames. -/
theorem change_state_resets_around_parent_witness :
    gst_base_video_codec_change_state example_parent example_state
        GST_STATE_CHANGE_READY_TO_PAUSED
      = (gst_base_video_codec_reset example_state).map (fun s1 =>
          ((example_parent s1 GST_STATE_CHANGE_READY_TO_PAUSED).1,
           (example_parent s1 GST_STATE_CHANGE_READY_TO_PAUSED).2,
           [Call.reset, Call.parent_change_state GST_STATE_CHANGE_READY_TO_PAUSED])) :=
  (change_state_resets_around_parent example_parent example_state
    GST_STATE_CHANGE_READY_TO_PAUSED).1 rfl

/-- C7: destroying a frame calls `gst_buffer_unref` once on the sink buffer if one is
set, then once on the source buffer if one is set, `gst_event_unref` once on each
attached event in list order, and the coder hook destroy notify once, on the hook
data, exactly when both the notify and the hook data are set, so at most once and
never without hook data; it releases no caps, frees the frame once, which releases
its block, and changes no other frame and nothing in the element. The final unref of
a frame does the same. -/
theorem frame_free_releases_resources (frame : Ptr) (s : State) (f : GstVideoFrame)
    (hp : frame ≠ NULL) (hf : s.mem frame = some f) :
    ∃ s', _gst_video_frame_free frame s = some s' ∧
      buffer_unrefs s'.log
        = buffer_unrefs s.log ++
            ((if f.sink_buffer ≠ NULL then [f.sink_buffer] else []) ++
             (if f.src_buffer ≠ NULL then [f.src_buffer] else [])) ∧
      event_unrefs s'.log = event_unrefs s.log ++ f.events ∧
      notify_calls s'.log
        = notify_calls s.log ++
            (if f.coder_hook_destroy_notify ≠ NULL ∧ f.coder_hook ≠ NULL
             then [(f.coder_hook_destroy_notify, f.coder_hook)] else []) ∧
      (notify_calls s'.log).length ≤ (notify_calls s.log).length + 1 ∧
      (f.coder_hook = NULL → notify_calls s'.log = notify_calls s.log) ∧
      caps_unrefs s'.log = caps_unrefs s.log ∧
      slice_frees s'.log = slice_frees s.log ++ [frame] ∧
      s'.mem = s.mem.release frame ∧
      s'.mem frame = none ∧
      (∀ q, q ≠ frame → s'.mem q = s.mem q) ∧
      s'.codec = s.codec ∧
      (f.ref_count = 1 → gst_video_frame_unref frame s = some s') := by
  have hn := notify_calls_free_effects frame f
  refine ⟨_, free_allocated frame s f hp hf, ?_, ?_, ?_, ?_, ?_, ?_, ?_, rfl,
    release_same _ _, fun q hq => release_other _ _ _ hq, rfl,
    fun hone => unref_last frame s f hp hf hone⟩
  · show buffer_unrefs (s.log ++ free_effects frame f) = _
    rw [buffer_unrefs_append, buffer_unrefs_free_effects]
  · show event_unrefs (s.log ++ free_effects frame f) = _
    rw [event_unrefs_append, event_unrefs_free_effects]
  · show notify_calls (s.log ++ free_effects frame f) = _
    rw [notify_calls_append, hn]
  · show (notify_calls (s.log ++ free_effects frame f)).length ≤ _
    rw [notify_calls_append, hn, List.length_append]
    split_ifs <;> simp
  · intro hnull
    show notify_calls (s.log ++ free_effects frame f) = _
    rw [notify_calls_append, hn, if_neg (fun e => e.2 hnull), List.append_nil]
  · show caps_unrefs (s.log ++ free_effects frame f) = _
    rw [caps_unrefs_append, caps_unrefs_free_effects, List.append_nil]
  · show slice_frees (s.log ++ free_effects frame f) = _
    rw [slice_frees_append, slice_frees_free_effects]

/-- C7, witness: the frame at the address 5, with a sink buffer, two events and a
coder hook. -/
theorem frame_free_releases_resources_witness :
    (5 : Ptr) ≠ NULL ∧ example_state.mem 5 = some example_frame ∧
    ∃ s', _gst_video_frame_free 5 example_state = some s' ∧
      buffer_unrefs s'.log = [10] ∧ event_unrefs s'.log = [20, 21] ∧
      notify_calls s'.log = [(40, 30)] ∧ slice_frees s'.log = [5] :=
  ⟨by decide, rfl,
    (frame_free_releases_resources 5 example_state example_frame (by decide) rfl).elim
      fun s' h => ⟨s', h.1, h.2.1, h.2.2.1, h.2.2.2.1, h.2.2.2.2.2.2.2.1⟩⟩

/-- C8, as the code has it: on a frame that is not null `gst_video_frame_ref` returns
the frame it was given, with one added to the reference count as a `gint` adds, which
is the count increased by exactly one while the count is below `G_MAXINT`, and every
other member as before; no other frame and nothing in the element changes, no call
leaves the file, and the frame is destroyed no more often than before. -/
theorem frame_ref_adds_one_reference (frame : Ptr) (s : State) (f : GstVideoFrame)
    (hp : frame ≠ NULL) (hf : s.mem frame = some f) :
    gst_video_frame_ref frame s =
      some (frame,
        { codec := s.codec,
          mem := s.mem.store frame { f with ref_count := to_gint (f.ref_count + 1) },
          log := s.log }) ∧
    (is_gint f.ref_count → f.ref_count ≠ G_MAXINT →
      gst_video_frame_ref frame s =
        some (frame,
          { codec := s.codec,
            mem := s.mem.store frame { f with ref_count := f.ref_count + 1 },
            log := s.log })) ∧
    (∃ r, gst_video_frame_ref frame s = some r ∧ r.1 = frame ∧
      (∃ f', r.2.mem frame = some f' ∧ { f' with ref_count := f.ref_count } = f) ∧
      (∀ q, q ≠ frame → r.2.mem q = s.mem q) ∧
      r.2.codec = s.codec ∧ r.2.log = s.log ∧
      destroyed frame r.2 = destroyed frame s) := by
  have h := ref_allocated frame s f hp hf
  refine ⟨h, ?_, ?_⟩
  · intro hg hne
    unfold is_gint at hg
    rw [h, to_gint_of_gint _ (by omega) (by omega)]
  · exact ⟨_, h, rfl, ⟨_, store_same _ _ _, rfl⟩, fun q hq => store_other _ _ _ _ hq,
      rfl, rfl, rfl⟩

/-- C8, witness: a ref on the shared frame at the address 6. -/
theorem frame_ref_adds_one_reference_witness :
    (6 : Ptr) ≠ NULL ∧ example_state.mem 6 = some shared_frame ∧
    gst_video_frame_ref 6 example_state =
      some (6,
        { codec := example_state.codec,
          mem := example_state.mem.store 6
            { shared_frame with ref_count := shared_frame.ref_count + 1 },
          log := example_state.log }) :=
  ⟨by decide, rfl,
    (frame_ref_adds_one_reference 6 example_state shared_frame (by decide) rfl).2.1
      (by decide) (by decide)⟩

/-- C8, as stated, fails: a ref on a frame whose count is `G_MAXINT` leaves the count
`G_MININT`, not the count increased by one. -/
theorem frame_ref_at_full_count_counterexample :
    (full_count_state.mem 5).map (fun f => f.ref_count) = some 2147483647 ∧
    ((gst_video_frame_ref 5 full_count_state).bind fun r =>
        (r.2.mem 5).map fun f => f.ref_count) = some (-2147483648) ∧
    ((gst_video_frame_ref 5 full_count_state).bind fun r =>
        (r.2.mem 5).map fun f => f.ref_count) ≠ some (2147483647 + 1) := by
  decide

/-- C9, as the code has it: `gst_base_video_codec_reset` leaves the element's sequence
number counter as it is; over every sequence of new_frame and reset calls on an
element whose frame list can be released, the sequence numbers of the frames returned
are the consecutive values from the counter's value before the first call on as a
`gint` holds them, and when these values are at most `G_MAXINT` they are these values
themselves: strictly increasing in call order, none used twice. The blocks
`g_slice_new0` hands out are blocks that are not allocated. -/
theorem sequence_numbers_survive_reset :
    (∀ s s' : State, gst_base_video_codec_reset s = some s' →
      s'.codec.system_frame_number = s.codec.system_frame_number) ∧
    (∀ (ops : List CodecOp) (s : State),
      can_unref_all s.codec.frames s → fresh_blocks ops s = true →
      ∃ numbers s', run_codec_ops ops s = some (numbers, s') ∧
        numbers = (List.range' s.codec.system_frame_number (new_frame_calls ops)).map
                    (fun m : Nat => to_gint (m : Int)) ∧
        (s.codec.system_frame_number + new_frame_calls ops ≤ 2147483648 →
          numbers = (List.range' s.codec.system_frame_number (new_frame_calls ops)).map
                      (fun m : Nat => (m : Int)) ∧
          List.Pairwise (fun a b => a < b) numbers ∧ numbers.Nodup) ∧
        (s.codec.system_frame_number + new_frame_calls ops ≤ G_MAXUINT64 →
          s'.codec.system_frame_number
            = s.codec.system_frame_number + new_frame_calls ops)) := by
  refine ⟨?_, ?_⟩
  · intro s s' h
    rw [reset_codec s s' h]
  · intro ops s hcan hblocks
    obtain ⟨s', hrun, hcnt⟩ := run_codec_ops_numbers ops s hcan hblocks
    refine ⟨_, s', hrun, rfl, ?_, ?_⟩
    · intro hle
      have h2 := map_to_gint_range_small _ _ hle
      refine ⟨h2, ?_, ?_⟩
      · rw [h2]; exact pairwise_lt_map_range _ _
      · rw [h2]; exact nodup_map_range _ _
    · intro hle
      unfold G_MAXUINT64 at hle
      exact hcnt (by omega)

/-- C9, witness: new_frame, reset, new_frame on an element with the live frames 5 and
6 and the counter 8. -/
theorem sequence_numbers_survive_reset_witness :
    can_unref_all example_state.codec.frames example_state ∧
    ∃ numbers s',
      run_codec_ops [CodecOp.new_frame 11, CodecOp.reset, CodecOp.new_frame 12] example_state
        = some (numbers, s') ∧
      numbers = (List.range' example_state.codec.system_frame_number
                  (new_frame_calls [CodecOp.new_frame 11, CodecOp.reset, CodecOp.new_frame 12])).map
                  (fun m : Nat => to_gint (m : Int)) :=
  have hcan : can_unref_all example_state.codec.frames example_state := by
    intro q hq
    have h56 : q = 5 ∨ q = 6 := by simpa [example_state] using hq
    rcases h56 with e | e
    · subst e; exact Or.inr ⟨example_frame, rfl, Or.inr (by decide)⟩
    · subst e; exact Or.inr ⟨shared_frame, rfl, Or.inr (by decide)⟩
  ⟨hcan,
    (sequence_numbers_survive_reset.2
        [CodecOp.new_frame 11, CodecOp.reset, CodecOp.new_frame 12] example_state hcan
        (by decide)).elim
      fun numbers h => h.elim fun s' h2 => ⟨numbers, s', h2.1, h2.2.1⟩⟩

/-- C9, as stated, fails. On an element whose counter is `G_MAXINT`, the calls
new_frame, reset, new_frame return the sequence numbers `G_MAXINT` and `G_MININT`,
which are not increasing. And on an element whose frame list still holds the address
of a destroyed frame, the reset reads the freed block: the calls reset, new_frame
have no defined result. -/
theorem sequence_numbers_wrap_counterexample :
    (run_codec_ops [CodecOp.new_frame 7, CodecOp.reset, CodecOp.new_frame 8]
        last_gint_number_state).map (fun r => r.1) = some [2147483647, -2147483648] ∧
    ¬ List.Pairwise (fun a b : Int => a < b) [2147483647, -2147483648] ∧
    (run_codec_ops [CodecOp.reset, CodecOp.new_frame 9] dangling_state).map (fun r => r.1)
      = none := by
  decide

/-- C10, as the code has it: `gst_video_frame_unref` on an allocated frame whose count
is not positive, and on the null pointer, returns with the state as it was (count,
frame, log), and on a block that was freed it has no defined result; a sequence of
unref calls returns exactly when every call is made on null or on a frame that was
not destroyed before, and then a count that is not negative stays so, every frame
is destroyed at most once, and a frame whose count is not positive is neither
destroyed nor changed; `gst_video_frame_ref` on the null pointer returns null with
the state as it was, on a freed block it has no defined result, and on a frame it adds
one as a `gint` adds, whatever the count is: a count that is not positive goes up by
one. -/
theorem unref_guards_count_and_ref_does_not :
    (∀ (frame : Ptr) (s : State) (f : GstVideoFrame), s.mem frame = some f →
      f.ref_count ≤ 0 → gst_video_frame_unref frame s = some s) ∧
    (∀ s : State, gst_video_frame_unref NULL s = some s) ∧
    (∀ (frame : Ptr) (s : State), frame ≠ NULL → s.mem frame = none →
      gst_video_frame_unref frame s = none) ∧
    (∀ (ps : List Ptr) (s : State),
      (∃ s', unref_frames ps s = some s') ↔ can_unref_all ps s) ∧
    (∀ (ps : List Ptr) (s s' : State) (q : Ptr) (f : GstVideoFrame),
      unref_frames ps s = some s' → s.mem q = some f → 0 ≤ f.ref_count →
      s'.mem q = none ∨ ∃ f', s'.mem q = some f' ∧ 0 ≤ f'.ref_count) ∧
    (∀ (ps : List Ptr) (s s' : State) (q : Ptr),
      unref_frames ps s = some s' → destroyed q s' ≤ destroyed q s + 1) ∧
    (∀ (ps : List Ptr) (s s' : State) (q : Ptr) (f : GstVideoFrame),
      unref_frames ps s = some s' → s.mem q = some f → f.ref_count ≤ 0 →
      destroyed q s' = destroyed q s ∧ s'.mem q = some f) ∧
    (∀ s : State, gst_video_frame_ref NULL s = some (NULL, s)) ∧
    (∀ (frame : Ptr) (s : State), frame ≠ NULL → s.mem frame = none →
      gst_video_frame_ref frame s = none) ∧
    (∀ (frame : Ptr) (s : State) (f : GstVideoFrame), frame ≠ NULL → s.mem frame = some f →
      gst_video_frame_ref frame s =
        some (frame,
          { codec := s.codec,
            mem := s.mem.store frame { f with ref_count := to_gint (f.ref_count + 1) },
            log := s.log })) ∧
    (∀ (frame : Ptr) (s : State) (f : GstVideoFrame), frame ≠ NULL → s.mem frame = some f →
      is_gint f.ref_count → f.ref_count ≤ 0 →
      gst_video_frame_ref frame s =
        some (frame,
          { codec := s.codec,
            mem := s.mem.store frame { f with ref_count := f.ref_count + 1 },
            log := s.log })) := by
  refine ⟨unref_nonpos, unref_null, unref_released, unref_frames_defined_iff, ?_, ?_, ?_, ?_,
    ref_released, ref_allocated, ?_⟩
  · intro ps s s' q f h hm hc
    by_cases hq : q = NULL
    · subst hq
      rw [unref_frames_mem_null ps s s' h, hm]
      exact Or.inr ⟨f, rfl, hc⟩
    · rw [unref_frames_mem ps q s s' h hq, hm]
      simp only [Option.some_bind]
      by_cases hd : 0 < f.ref_count ∧ f.ref_count ≤ (ps.count q : Int)
      · rw [if_pos hd]; exact Or.inl rfl
      · rw [if_neg hd]
        refine Or.inr ⟨_, rfl, ?_⟩
        show 0 ≤ (if f.ref_count ≤ 0 then f.ref_count else f.ref_count - (ps.count q : Int))
        split_ifs <;> omega
  · intro ps s s' q h
    rw [unref_frames_destroyed ps q s s' h]
    cases hm : s.mem q with
    | none => simp
    | some f =>
      simp only [Option.elim_some]
      split_ifs <;> omega
  · intro ps s s' q f h hm hc
    refine ⟨?_, ?_⟩
    · rw [unref_frames_destroyed ps q s s' h, hm]
      have hn : ¬ (q ≠ NULL ∧ 0 < f.ref_count ∧ f.ref_count ≤ (ps.count q : Int)) := by omega
      simp only [Option.elim_some, if_neg hn, Nat.add_zero]
    · by_cases hq : q = NULL
      · subst hq
        rw [unref_frames_mem_null ps s s' h, hm]
      · rw [unref_frames_mem ps q s s' h hq, hm]
        have hn : ¬ (0 < f.ref_count ∧ f.ref_count ≤ (ps.count q : Int)) := by omega
        simp only [Option.some_bind, if_neg hn, if_pos hc]
  · intro s
    simp [gst_video_frame_ref]
  · intro frame s f hp hm hg hc
    unfold is_gint at hg
    rw [ref_allocated frame s f hp hm, to_gint_of_gint _ (by omega) (by unfold G_MAXINT; omega)]

/-- C10, witness: two unrefs on the shared frame at the address 6, whose count is 2,
return and destroy it once; a ref on a frame whose count is 0 makes the count 1. -/
theorem unref_guards_count_and_ref_does_not_witness :
    can_unref_all [6, 6] example_state ∧
    (∃ s', unref_frames [6, 6] example_state = some s') ∧
    ((unref_frames [6, 6] example_state).map (destroyed 6)) = some 1 ∧
    gst_video_frame_ref 9 { example_state with mem := example_state.mem.store 9 GstVideoFrame.zero }
      = some (9,
          { codec := example_state.codec,
            mem := (example_state.mem.store 9 GstVideoFrame.zero).store 9
              { GstVideoFrame.zero with ref_count := GstVideoFrame.zero.ref_count + 1 },
            log := example_state.log }) :=
  have hcan : can_unref_all [6, 6] example_state := by
    intro q hq
    have h6 : q = 6 := by simpa using hq
    subst h6
    exact Or.inr ⟨shared_frame, rfl, Or.inr (by decide)⟩
  ⟨hcan, (unref_guards_count_and_ref_does_not.2.2.2.1 [6, 6] example_state).mpr hcan,
    by decide,
    unref_guards_count_and_ref_does_not.2.2.2.2.2.2.2.2.2.2 9
      { example_state with mem := example_state.mem.store 9 GstVideoFrame.zero }
      GstVideoFrame.zero (by decide) rfl (by decide) (by decide)⟩

/-- C10, as stated, fails: on the frame at the address 5, whose count is 1, a first
unref destroys the frame and frees its block, and the second unref, which reads the
count in the freed block, has no defined result, so that the guard on the count does
not keep a sequence of unref calls from running the destruction again. -/
theorem unref_after_destroy_counterexample :
    (example_state.mem 5).map (fun f => f.ref_count) = some 1 ∧
    (gst_video_frame_unref 5 example_state).map (destroyed 5) = some 1 ∧
    (gst_video_frame_unref 5 example_state).map (fun s1 => (s1.mem 5).isNone) = some true ∧
    ((gst_video_frame_unref 5 example_state).bind (gst_video_frame_unref 5)).isNone = true ∧
    (unref_frames [5, 5] example_state).isNone = true := by
  decide

end Gst
